import Mathlib

/-!
Shallow embedding of the feed-forward neural-network engine in
`src/nn_with_python/nn.py` (class `NeuralNetwork`), together with proofs
settling the frozen claims about its specification.

Modelling conventions:
- numpy 2-D arrays are modelled by `NN.Mat`: an explicit shape (`rows`, `cols`)
  together with a total entry function `ℕ → ℕ → ℝ`.  Only entries at indices
  below the shape are meaningful; numpy reductions and products only read
  in-range entries.
- Python floats are modelled by real numbers.
- operations that can raise a Python exception are modelled in an `Except`
  monad over the error vocabulary `NN.Err`.  Each constructor of `NN.Err`
  names the concrete Python failure it models (KeyError on a parameter key,
  IndexError on a list, TypeError from using `None` as an array, ValueError
  from incompatible numpy shapes, AssertionError from the three shape asserts
  in `__linear_backward`).  `Err.lossNotSelected` and `Err.noLayers` model the
  explicit error conditions named by the spec; the code never produces them,
  and they are included so that statements about those spec sentences can be
  written down.
- the parameter dictionary keys are the strings `"W1"`, `"b1"`, …; since the
  formatting `i ↦ "Wi"` is injective, the keys are modelled by pairs
  `(isWeight : Bool, index : ℕ)` (`(true, i)` for `"Wi"`, `(false, i)` for
  `"bi"`).  Likewise gradient-dictionary keys `"dWi"/"dbi"/"dAi"` are modelled
  by `(NN.GKind, ℕ)` pairs.
- `np.random.randn` draws are modelled by an entry oracle
  `ω : ℕ → ℕ → ℕ → ℝ` supplied to the constructor: the draw for layer `i` is
  the matrix of the shape the code requests whose entries are `ω i`.
-/

namespace NN

noncomputable section

/-- Model of a numpy 2-D array: a shape plus a total entry function. -/
structure Mat where
  rows : ℕ
  cols : ℕ
  entry : ℕ → ℕ → ℝ

/-- The numpy `.shape` attribute. -/
def Mat.shape (m : Mat) : ℕ × ℕ := (m.rows, m.cols)

/-- Gradient-dictionary key kinds: `"dW…"`, `"db…"`, `"dA…"`. -/
inductive GKind where
  | dW
  | db
  | dA
  deriving DecidableEq

/-- Model of the Python exceptions the engine can raise, plus the two
explicit error conditions named by the spec (`lossNotSelected`, `noLayers`)
which are included only so claims about them can be stated. -/
inductive Err where
  /-- KeyError on `self.parameters["W…"]` or `self.parameters["b…"]`;
  the key is recorded (`(true, i)` models `"Wi"`, `(false, i)` models `"bi"`). -/
  | keyErrorParam (k : Bool × ℕ)
  /-- KeyError on `self.grads["dW…"/"db…"/"dA…"]`. -/
  | keyErrorGrad (k : GKind × ℕ)
  /-- IndexError indexing `self.activations`. -/
  | indexErrorActivations
  /-- IndexError indexing `self.cache`. -/
  | indexErrorCache
  /-- IndexError indexing `self.layer_type`. -/
  | indexErrorLayerType
  /-- TypeError from using Python `None` where an array is required. -/
  | typeErrorNone
  /-- AttributeError from `dA.shape` when `dA` is `None`. -/
  | attrNoneShape
  /-- ValueError from broadcasting or matrix-multiplying incompatible shapes. -/
  | valueError
  /-- AssertionError from one of the three shape asserts in `__linear_backward`;
  the string records which assert fired. -/
  | assertionError (which : String)
  /-- The `conv` layer branch: the convolution methods are commented out in the
  source, so taking this branch fails (`AttributeError` / KeyError on
  `self.hyperparam`). -/
  | convUnavailable
  /-- Modelled from the spec: the explicit "loss function not selected"
  condition the spec describes.  The code never raises it. -/
  | lossNotSelected
  /-- Modelled from the spec: the explicit "network has no layers" condition
  the spec describes.  The code never raises it. -/
  | noLayers
  deriving DecidableEq

/-- Python list indexing `l[i]` (negative indices count from the end;
out of range is `none`, modelling IndexError). -/
def pyGet? {α : Type} (l : List α) (i : ℤ) : Option α :=
  if 0 ≤ i then l.get? i.toNat
  else if (-i).toNat ≤ l.length then l.get? (l.length - (-i).toNat) else none

/-- Python `str.lower()` (written via the character list so that concrete
instances reduce). -/
def pyLower (s : String) : String := ⟨s.data.map Char.toLower⟩

/-- Python dict assignment `d[k] = v` (observationally: later lookups of `k`
give `v`, other keys are unchanged; the engine never iterates these dicts). -/
def dictSet {κ α : Type} [DecidableEq κ] (l : List (κ × α)) (k : κ) (v : α) :
    List (κ × α) :=
  (k, v) :: l.eraseP (fun p => p.1 == k)

/-- Python dict lookup `d[k]` (`none` models KeyError). -/
def dictGet {κ α : Type} [DecidableEq κ] (l : List (κ × α)) (k : κ) : Option α :=
  match l with
  | [] => none
  | (k2, v) :: rest => if k = k2 then some v else dictGet rest k

/-- Matrix multiplication `a.dot(b)` (ValueError when the inner dimensions
disagree, as in numpy). -/
def dotE (a b : Mat) : Except Err Mat :=
  if a.cols = b.rows then
    .ok ⟨a.rows, b.cols, fun i j => ∑ k in Finset.range a.cols, a.entry i k * b.entry k j⟩
  else .error .valueError

/-- Result length of broadcasting one 2-D axis against another. -/
def bcastLen (a b : ℕ) : ℕ := if a = 1 then b else a

/-- Index into a possibly-broadcast axis. -/
def bidx (n i : ℕ) : ℕ := if n = 1 then 0 else i

/-- Elementwise binary numpy operation with 2-D broadcasting
(ValueError when the shapes are incompatible, as in numpy). -/
def bbinE (f : ℝ → ℝ → ℝ) (a b : Mat) : Except Err Mat :=
  if (a.rows = b.rows ∨ a.rows = 1 ∨ b.rows = 1) ∧
     (a.cols = b.cols ∨ a.cols = 1 ∨ b.cols = 1) then
    .ok ⟨bcastLen a.rows b.rows, bcastLen a.cols b.cols,
      fun i j => f (a.entry (bidx a.rows i) (bidx a.cols j))
                   (b.entry (bidx b.rows i) (bidx b.cols j))⟩
  else .error .valueError

/-- Broadcast addition `a + b`. -/
def badd : Mat → Mat → Except Err Mat := bbinE (fun x y => x + y)

/-- Broadcast subtraction `a - b`. -/
def bsub : Mat → Mat → Except Err Mat := bbinE (fun x y => x - y)

/-- Broadcast multiplication `a * b`. -/
def bmul : Mat → Mat → Except Err Mat := bbinE (fun x y => x * y)

/-- Broadcast division `np.divide(a, b)`. -/
def bdiv : Mat → Mat → Except Err Mat := bbinE (fun x y => x / y)

/-- Scalar multiple `c * m`. -/
def smul (c : ℝ) (m : Mat) : Mat :=
  ⟨m.rows, m.cols, fun i j => c * m.entry i j⟩

/-- Elementwise map. -/
def emap (f : ℝ → ℝ) (m : Mat) : Mat :=
  ⟨m.rows, m.cols, fun i j => f (m.entry i j)⟩

/-- `m.T`. -/
def transpose (m : Mat) : Mat :=
  ⟨m.cols, m.rows, fun i j => m.entry j i⟩

/-- `np.sum(m, keepdims=True, axis=1)`. -/
def sumAxis1 (m : Mat) : Mat :=
  ⟨m.rows, 1, fun i _ => ∑ j in Finset.range m.cols, m.entry i j⟩

/-- `np.sum(m)`: sum of all (in-range) entries. -/
def totalSum (m : Mat) : ℝ :=
  ∑ i in Finset.range m.rows, ∑ j in Finset.range m.cols, m.entry i j

/-- `m.mean()`: mean of all (in-range) entries. -/
def Mat.mean (m : Mat) : ℝ := totalSum m / (m.rows * m.cols : ℕ)

/-- `np.sum(np.square(m))`. -/
def sqsum (m : Mat) : ℝ :=
  ∑ i in Finset.range m.rows, ∑ j in Finset.range m.cols, m.entry i j ^ 2

/-- `np.max(m)`: the maximum entry of the whole array (numpy errors on an
empty array; here the empty case returns `0` and is never relied upon). -/
def Mat.gmax (m : Mat) : ℝ :=
  if h : (Finset.range m.rows ×ˢ Finset.range m.cols).Nonempty then
    (Finset.range m.rows ×ˢ Finset.range m.cols).sup' h (fun p => m.entry p.1 p.2)
  else 0

/-- One record of the forward cache `[[A_prev, W, b], [Z]]`: the linear cache
(`none` when the layer-kind branch left it as Python `None`) and the single
activation-cache slot (`none` models a cached Python `None`). -/
structure CacheRec where
  lin : Option (Mat × Mat × Mat)
  act : Option Mat

/-- The mutable state of a `NeuralNetwork` instance.  `hyperparam` is omitted:
it is only touched by the disabled convolution branch, modelled by
`Err.convUnavailable`. -/
structure NNState where
  parameters : List ((Bool × ℕ) × Mat)
  cache : List CacheRec
  activations : List (Option String)
  cost_function : String
  lamb : ℝ
  grads : List ((GKind × ℕ) × Option Mat)
  layer_type : List String

/-- Xavier-scaled weight draw for layer index `i` of one
`initialize_parameters` call: `sqrt(2/(dims[i-1]+dims[i])) * randn(dims[i], dims[i-1])`,
with the standard-normal draw supplied by the entry oracle `ω`. -/
def Wdraw (dims : List ℕ) (ω : ℕ → ℕ → ℕ → ℝ) (i : ℕ) : Mat :=
  ⟨dims.getD i 0, dims.getD (i - 1) 0,
    fun a b => Real.sqrt (2 / ((dims.getD (i - 1) 0 : ℝ) + (dims.getD i 0 : ℝ))) * ω i a b⟩

/-- Zero bias `np.zeros((dims[i], 1))` for layer index `i`. -/
def bZeros (dims : List ℕ) (i : ℕ) : Mat :=
  ⟨dims.getD i 0, 1, fun _ _ => 0⟩

/-- `NeuralNetwork.initialize_parameters(layer_dimensions)`: appends, for every
adjacent pair of `dims`, a Xavier-initialised weight keyed `"W(n0+i)"` and a
zero bias keyed `"b(i+n0)"` (where `n0` is the current layer count), and
appends one `"fc"` layer-kind tag per new layer. -/
def init_params (s : NNState) (dims : List ℕ) (ω : ℕ → ℕ → ℕ → ℝ) :
    NNState :=
  let n0 := s.parameters.length / 2
  { s with
    parameters := s.parameters ++
      (List.range' 1 (dims.length - 1)).flatMap
        (fun i => [((true, n0 + i), Wdraw dims ω i), ((false, i + n0), bZeros dims i)]),
    layer_type := s.layer_type ++ List.replicate (dims.length - 1) "fc" }

/-- `NeuralNetwork.check_activations()`: pads `self.activations` with `None`
until its length reaches the number of layers (closed form of the while loop). -/
def check_activations (s : NNState) : NNState :=
  { s with activations :=
      s.activations ++ List.replicate (s.parameters.length / 2 - s.activations.length) none }

/-- `NeuralNetwork.__init__(layer_dimensions, activations)`. -/
def init (dims : List ℕ) (acts : List (Option String))
    (ω : ℕ → ℕ → ℕ → ℝ) : NNState :=
  check_activations (init_params
    { parameters := []
      cache := []
      activations := acts
      cost_function := ""
      lamb := 0
      grads := []
      layer_type := [""] } dims ω)

/-- `NeuralNetwork.add_fcn(dims, activations)`: grow the network and append
the given activation selectors (note: no padding call). -/
def add_fcn (s : NNState) (dims : List ℕ) (acts : List (Option String))
    (ω : ℕ → ℕ → ℕ → ℝ) : NNState :=
  let s1 := init_params s dims ω
  { s1 with activations := s1.activations ++ acts }

/-- `Z * (Z > 0)` (relu). -/
def reluM (Z : Mat) : Mat :=
  emap (fun z => if 0 < z then z else 0) Z

/-- `np.tanh(Z)`. -/
def tanhM (Z : Mat) : Mat := emap Real.tanh Z

/-- `1 / (1 + np.exp(-Z))`. -/
def sigmoidM (Z : Mat) : Mat :=
  emap (fun z => 1 / (1 + Real.exp (-z))) Z

/-- `act = np.exp(Z - np.max(Z)); act = act / (act.sum(axis=0) + 1e-10)`:
the exponentials are shifted by the global maximum of `Z`, and each column is
divided by its own column sum plus `1e-10`. -/
def softmaxM (Z : Mat) : Mat :=
  ⟨Z.rows, Z.cols, fun i j =>
    Real.exp (Z.entry i j - Z.gmax) /
      ((∑ k in Finset.range Z.rows, Real.exp (Z.entry k j - Z.gmax)) + 1e-10)⟩

/-- `NeuralNetwork.__activate(Z, n_layer)`: returns the activated value (which
stays Python `None` for an unrecognised selector) and the cached `Z`.  `Z`
itself may be `None` (non-`fc` layer kinds leave it so); the named branches
then fail with a TypeError while the `None` selector passes it through. -/
def activate (s : NNState) (oZ : Option Mat) (n : ℕ) :
    Except Err (Option Mat × Option Mat) :=
  match pyGet? s.activations ((n : ℤ) - 1) with
  | none => .error .indexErrorActivations
  | some none => .ok (oZ, oZ)
  | some (some name) =>
    if pyLower name = "relu" ∨ pyLower name = "tanh" ∨
       pyLower name = "sigmoid" ∨ pyLower name = "softmax" then
      match oZ with
      | none => .error .typeErrorNone
      | some Z =>
        .ok (some (if pyLower name = "relu" then reluM Z
                   else if pyLower name = "tanh" then tanhM Z
                   else if pyLower name = "sigmoid" then sigmoidM Z
                   else softmaxM Z), some Z)
    else .ok (none, oZ)

/-- `NeuralNetwork.__linear_forward(A_prev, W, b)`:
`Z = W.dot(A_prev) + b`, `linear_cache = [A_prev, W, b]`. -/
def linear_forward (A W b : Mat) :
    Except Err (Mat × (Mat × Mat × Mat)) := do
  let Z0 ← dotE W A
  let Z ← badd Z0 b
  .ok (Z, (A, W, b))

/-- One iteration of the forward loop (`for i in range(1, L)` body):
fetch `Wi`, `bi`, branch on `self.layer_type[i]`, linear step, activation,
and build the cache record appended for this layer. -/
def forwardStep (s : NNState) (A : Option Mat) (i : ℕ) :
    Except Err (CacheRec × Option Mat) :=
  match dictGet s.parameters (true, i) with
  | none => .error (.keyErrorParam (true, i))
  | some W =>
    match dictGet s.parameters (false, i) with
    | none => .error (.keyErrorParam (false, i))
    | some b =>
      match pyGet? s.layer_type (i : ℤ) with
      | none => .error .indexErrorLayerType
      | some lt =>
        if lt = "fc" then
          match A with
          | none => .error .typeErrorNone
          | some Aprev => do
            let zl ← linear_forward Aprev W b
            let ac ← activate s (some zl.1) i
            .ok (⟨some zl.2, ac.2⟩, ac.1)
        else if lt = "conv" then .error .convUnavailable
        else do
          let ac ← activate s none i
          .ok (⟨none, ac.2⟩, ac.1)

/-- The forward loop over layers `i, i+1, …` (`fuel` iterations remain);
returns the cache records appended so far even when an iteration fails. -/
def forwardLoop (s : NNState) (A : Option Mat) (i : ℕ) :
    ℕ → List CacheRec × Except Err (Option Mat)
  | 0 => ([], .ok A)
  | fuel + 1 =>
    match forwardStep s A i with
    | .error e => ([], .error e)
    | .ok (rec, A1) =>
      let rest := forwardLoop s A1 (i + 1) fuel
      (rec :: rest.1, rest.2)

/-- `NeuralNetwork.forward(net_input)` as a cache + result computation: the
loop over layers `1 … L-1`, then the final layer, which is activated and
cached only when the activation-selector count equals the layer count
(`len(self.activations) == len(self.parameters)/2`). -/
def forwardCore (s : NNState) (input : Mat) :
    List CacheRec × Except Err (Option Mat) :=
  let L := s.parameters.length / 2
  match forwardLoop s (some input) 1 (L - 1) with
  | (c, .error e) => (c, .error e)
  | (c, .ok A) =>
    match dictGet s.parameters (true, L) with
    | none => (c, .error (.keyErrorParam (true, L)))
    | some W =>
      match dictGet s.parameters (false, L) with
      | none => (c, .error (.keyErrorParam (false, L)))
      | some b =>
        match A with
        | none => (c, .error .typeErrorNone)
        | some Aprev =>
          match linear_forward Aprev W b with
          | .error e => (c, .error e)
          | .ok zl =>
            if 2 * s.activations.length = s.parameters.length then
              match activate s (some zl.1) s.activations.length with
              | .error e => (c, .error e)
              | .ok ac => (c ++ [⟨some zl.2, ac.2⟩], .ok ac.1)
            else (c ++ [⟨some zl.2, none⟩], .ok (some zl.1))

/-- `NeuralNetwork.forward(net_input)`: resets `self.cache`, then runs the
layer loop; the only state field written is the cache. -/
def forward (s : NNState) (input : Mat) :
    NNState × Except Err (Option Mat) :=
  let r := forwardCore s input
  ({ s with cache := r.1 }, r.2)

/-- The L2 accumulation loop `for params in range(n): … + np.sum(np.square(self.parameters["W(params+1)"]))`
(iterating parameter indices `1 … n` in ascending order, KeyError on a missing
weight). -/
def regSumAux (s : NNState) : ℕ → Except Err ℝ
  | 0 => .ok 0
  | n + 1 => do
    let r ← regSumAux s n
    match dictGet s.parameters (true, n + 1) with
    | none => .error (.keyErrorParam (true, n + 1))
    | some W => .ok (r + sqsum W)

/-- The shared regularization term of both losses:
`regularization_cost` is accumulated only when `self.lamb != 0`
(over one weight per entry of `self.cache`), and in either case the final
value is scaled by `lamb / (2 * prediction.shape[1])`. -/
def regCost (s : NNState) (p : Mat) : Except Err ℝ := do
  let acc ← if s.lamb ≠ 0 then regSumAux s s.cache.length else .ok 0
  .ok (s.lamb / (2 * (p.cols : ℝ)) * acc)

/-- `NeuralNetwork.MSELoss(prediction, mappings)`: sets
`self.cost_function = "MSELoss"` first, then returns
`np.square(prediction - mappings).mean() / 2` plus the regularization term.
The state component is the updated state, which is produced no matter whether
the value computation succeeds. -/
def MSELoss (s : NNState) (p t : Mat) : NNState × Except Err ℝ :=
  let s1 := { s with cost_function := "MSELoss" }
  (s1, do
    let d ← bsub p t
    let loss := (emap (fun x => x ^ 2) d).mean / 2
    let rc ← regCost s1 p
    .ok (loss + rc))

/-- `NeuralNetwork.CrossEntropyLoss(prediction, mappings)`: sets
`self.cost_function = "CrossEntropyLoss"` first, then returns
`-(1/batch) * np.sum(mappings*np.log(prediction+1e-8) + (1-mappings)*np.log(1-prediction+1e-8))`
plus the regularization term. -/
def CrossEntropyLoss (s : NNState) (p t : Mat) : NNState × Except Err ℝ :=
  let s1 := { s with cost_function := "CrossEntropyLoss" }
  (s1, do
    let u ← bmul t (emap Real.log (emap (fun x => x + 1e-8) p))
    let v ← bmul (emap (fun x => 1 - x) t)
              (emap Real.log (emap (fun x => 1 - x + 1e-8) p))
    let w ← badd u v
    let loss := -(1 / (p.cols : ℝ)) * totalSum w
    let rc ← regCost s1 p
    .ok (loss + rc))

/-- `NeuralNetwork.output_backward(prediction, mapping)`: selects the
output-gradient formula by the stored `cost_function` (case-insensitively);
`dA` stays Python `None` (`none`) when neither loss name matches. -/
def output_backward (s : NNState) (p t : Mat) : Except Err (Option Mat) :=
  if pyLower s.cost_function = "crossentropyloss" then do
    let q1 ← bdiv t (emap (fun x => x + 1e-10) p)
    let q2 ← bdiv (emap (fun x => 1 - x) t) (emap (fun x => 1 - x + 1e-10) p)
    let d ← bsub q1 q2
    .ok (some (smul (-1) d))
  else if pyLower s.cost_function = "mseloss" then do
    let d ← bsub p t
    .ok (some d)
  else .ok none

/-- Result of `NeuralNetwork.__deactivate`: the Python `int` `1` (selector
`None`), an array, or Python `None` (unrecognised selector). -/
inductive Deact where
  | one
  | noneD
  | mat (M : Mat)

/-- `NeuralNetwork.__deactivate(dA, n_layer)`: reads the cached pre-activation
`self.cache[n_layer-1][1][0]`, then branches on the layer selector.  The
sigmoid and softmax selectors share one branch computing `s*(1-s)` with
`s = 1/(1+np.exp(-Z+1e-10))` from the cached pre-activation; the tanh branch
uses the incoming `dA`; the relu branch thresholds the cached pre-activation. -/
def deactivate (s : NNState) (dA : Mat) (n : ℕ) : Except Err Deact :=
  match pyGet? s.cache ((n : ℤ) - 1) with
  | none => .error .indexErrorCache
  | some rec =>
    match pyGet? s.activations ((n : ℤ) - 1) with
    | none => .error .indexErrorActivations
    | some none => .ok .one
    | some (some name) =>
      if pyLower name = "relu" then
        match rec.act with
        | none => .error .typeErrorNone
        | some Z => .ok (.mat (emap (fun z => if 0 < z then 1 else 0) Z))
      else if pyLower name = "tanh" then
        .ok (.mat (emap (fun x => 1 - x ^ 2) dA))
      else if pyLower name = "sigmoid" ∨ pyLower name = "softmax" then
        match rec.act with
        | none => .error .typeErrorNone
        | some Z => .ok (.mat (emap (fun z =>
            (1 / (1 + Real.exp (-z + 1e-10))) * (1 - 1 / (1 + Real.exp (-z + 1e-10)))) Z))
      else .ok .noneD

/-- The product `dA * deact` forming `dZ`: multiplying by the Python int `1`
keeps `dA`, multiplying by `None` is a TypeError, and multiplying by an array
broadcasts. -/
def applyDeact (dA : Mat) (de : Deact) : Except Err Mat :=
  match de with
  | .one => .ok dA
  | .noneD => .error .typeErrorNone
  | .mat M => bmul dA M

/-- `NeuralNetwork.__linear_backward(dA, n_layer)`: unpack the cached linear
triple, `dZ = dA * deactivation`, build `dW`, `db`, `dA_prev`, and run the
three shape asserts in source order (`A_prev`, then `dW`, then `db`);
an assert that fails is the fatal `AssertionError`. -/
def linear_backward (s : NNState) (dA : Mat) (n : ℕ) :
    Except Err (Mat × Mat × Mat) :=
  let batch := dA.cols
  match pyGet? s.cache ((n : ℤ) - 1) with
  | none => .error .indexErrorCache
  | some rec =>
    match rec.lin with
    | none => .error .typeErrorNone
    | some lc =>
      let Aprev := lc.1
      let W := lc.2.1
      let b := lc.2.2
      match deactivate s dA n with
      | .error e => .error e
      | .ok de =>
        match applyDeact dA de with
        | .error e => .error e
        | .ok dZ =>
          match dotE dZ (transpose Aprev) with
          | .error e => .error e
          | .ok dW0 =>
            match dictGet s.parameters (true, n) with
            | none => .error (.keyErrorParam (true, n))
            | some Wn =>
              match badd (smul (1 / (batch : ℝ)) dW0)
                  (smul (s.lamb / (batch : ℝ)) Wn) with
              | .error e => .error e
              | .ok dW =>
                let db := smul (1 / (batch : ℝ)) (sumAxis1 dZ)
                match dotE (transpose W) dZ with
                | .error e => .error e
                | .ok dAprev =>
                  if dAprev.rows = Aprev.rows ∧ dAprev.cols = Aprev.cols then
                    if dW.rows = W.rows ∧ dW.cols = W.cols then
                      if db.rows = b.rows ∧ db.cols = b.cols then
                        .ok (dW, db, dAprev)
                      else .error (.assertionError "db")
                    else .error (.assertionError "dW")
                  else .error (.assertionError "A_prev")

/-- Store a value in `self.grads` (values may be Python `None`: the loop
stores whatever the branch produced). -/
def gradSet (g : List ((GKind × ℕ) × Option Mat)) (k : GKind × ℕ) (v : Option Mat) :
    List ((GKind × ℕ) × Option Mat) :=
  dictSet g k v

/-- The reverse loop of `NeuralNetwork.backward`
(`for l in reversed(range(layer_num-1))`): with `fuel+1` iterations left the
current index is `l = fuel`.  Runs against the temporarily shifted
`self.layer_type`; gradient-dictionary writes persist even when a later
iteration fails. -/
def backwardLoop (s : NNState) : ℕ → NNState × Except Err Unit
  | 0 => (s, .ok ())
  | fuel + 1 =>
    let l := fuel
    match pyGet? s.layer_type (l : ℤ) with
    | none => (s, .error .indexErrorLayerType)
    | some lt =>
      if lt = "fc" then
        match dictGet s.grads (GKind.dA, l + 1) with
        | none => (s, .error (.keyErrorGrad (GKind.dA, l + 1)))
        | some none => (s, .error .attrNoneShape)
        | some (some dAl) =>
          match linear_backward s dAl (l + 1) with
          | .error e => (s, .error e)
          | .ok g =>
            let gnew := gradSet (gradSet (gradSet s.grads (GKind.dW, l + 1) (some g.1))
              (GKind.db, l + 1) (some g.2.1)) (GKind.dA, l) (some g.2.2)
            backwardLoop { s with grads := gnew } fuel
      else if lt = "conv" then (s, .error .convUnavailable)
      else
        let gnew := gradSet (gradSet (gradSet s.grads (GKind.dW, l + 1) none)
          (GKind.db, l + 1) none) (GKind.dA, l) none
        backwardLoop { s with grads := gnew } fuel

/-- The tail of `NeuralNetwork.backward`: on success of the reverse loop the
original `layer_type` (saved in `temp`) is restored; on an exception it is
left shifted, as in the source. -/
def backwardFinish (orig : List String) (pr : NNState × Except Err Unit) :
    NNState × Except Err Unit :=
  match pr with
  | (s2, .ok _) => ({ s2 with layer_type := orig }, .ok ())
  | (s2, .error e) => (s2, .error e)

/-- `NeuralNetwork.backward(prediction, mappings)`: output gradient (an
`AttributeError` on `.shape` when it is `None`), the last layer's
linear-backward step, then the reverse loop over the remaining layers with
`self.layer_type` shifted by one; the original `layer_type` is restored only
when the loop finishes (an exception leaves it shifted, as in the source). -/
def backward (s : NNState) (p t : Mat) : NNState × Except Err Unit :=
  let layer_num := s.cache.length
  match output_backward s p t with
  | .error e => (s, .error e)
  | .ok none => (s, .error .attrNoneShape)
  | .ok (some doutput) =>
    match linear_backward s doutput layer_num with
    | .error e => (s, .error e)
    | .ok g =>
      let g1 := gradSet (gradSet (gradSet s.grads (GKind.dW, layer_num) (some g.1))
        (GKind.db, layer_num) (some g.2.1)) (GKind.dA, layer_num - 1) (some g.2.2)
      let sShift := { s with grads := g1, layer_type := s.layer_type.drop 1 }
      backwardFinish s.layer_type (backwardLoop sShift (layer_num - 1))

/-! Concrete objects used by counterexamples and witnesses. -/

/-- A 1×1 zero matrix. -/
def m11 : Mat := ⟨1, 1, fun _ _ => 0⟩

/-- A 2×2 zero matrix. -/
def m22 : Mat := ⟨2, 2, fun _ _ => 0⟩

/-- A 3×3 zero matrix. -/
def m33 : Mat := ⟨3, 3, fun _ _ => 0⟩

/-- A degenerate entry oracle for the random draws. -/
def omega0 : ℕ → ℕ → ℕ → ℝ := fun _ _ _ => 0

/-- A state as produced by construction plus one forward pass and no loss
call: one layer, a populated cache, and the loss selector still unset. -/
def sNoLoss : NNState :=
  { parameters := [((true, 1), m11), ((false, 1), m11)]
    cache := [⟨some (m11, m11, m11), some m11⟩]
    activations := [none]
    cost_function := ""
    lamb := 0
    grads := []
    layer_type := ["", "fc"] }

/-- Modelled from the spec (for comparison against the code only): the local
derivative the spec states for sigmoid/softmax, `s*(1-s)` with
`s = 1/(1+exp(-Z))` recomputed exactly from the cached pre-activation. -/
def claimedSigDeriv (Z : Mat) : Mat :=
  emap (fun z => (1 / (1 + Real.exp (-z))) * (1 - 1 / (1 + Real.exp (-z)))) Z

/-- A one-layer state whose only layer uses the sigmoid selector, with the
zero 1×1 pre-activation cached. -/
def sSig : NNState :=
  { parameters := [((true, 1), m11), ((false, 1), m11)]
    cache := [⟨some (m11, m11, m11), some m11⟩]
    activations := [some "sigmoid"]
    cost_function := "MSELoss"
    lamb := 0
    grads := []
    layer_type := ["", "fc"] }

/-- A 1×2 pre-activation whose global maximum (`1`) sits in column 1, so that
column 0 is far from it. -/
def Zsm : Mat := ⟨1, 2, fun _ j => if j = 0 then 0 else 1⟩

/-- The activation selectors the engine understands: Python `None` or one of
the four named activations (compared after lowercasing, as the code does).
Any other selector makes `__activate` return `None` and the next layer (or
the caller) crash, so well-formed networks use only these. -/
def ValidSel : Option String → Prop
  | none => True
  | some n => pyLower n = "relu" ∨ pyLower n = "tanh" ∨
      pyLower n = "sigmoid" ∨ pyLower n = "softmax"

/-- All in-range entries of every weight tensor of the store are exactly
zero. -/
def AllWeightsZero (s : NNState) : Prop :=
  ∀ i, i < s.parameters.length / 2 → ∀ W,
    dictGet s.parameters (true, i + 1) = some W →
    ∀ a b, a < W.rows → b < W.cols → W.entry a b = 0

/-- A 1×1 matrix with entry `1/2`. -/
def mHalf : Mat := ⟨1, 1, fun _ _ => 1 / 2⟩

/-- A 1×1 prediction with entry `1 - 1e-9`, inside the open interval (0,1)
but within `1e-8` of `1`. -/
def pCE : Mat := ⟨1, 1, fun _ _ => 1 - 1e-9⟩

/-- A 1×1 target with entry `1`. -/
def tCE : Mat := ⟨1, 1, fun _ _ => 1⟩

/-- A one-layer state whose only layer uses the softmax selector. -/
def sSoft : NNState :=
  { parameters := [((true, 1), m11), ((false, 1), m11)]
    cache := []
    activations := [some "softmax"]
    cost_function := ""
    lamb := 0
    grads := []
    layer_type := ["", "fc"] }

end

end NN

namespace NN

/-! Helper lemmas shared between several claims. -/

/-- With an unset (or unrecognised) loss selector, `output_backward` leaves
`dA` as Python `None`. -/
theorem output_backward_unset (s : NNState) (p t : Mat)
    (h : s.cost_function = "") : output_backward s p t = .ok none := by
  unfold output_backward
  rw [h, if_neg (by decide), if_neg (by decide)]

/-- With an unset loss selector, `backward` fails with the `AttributeError`
coming from `dA.shape` on the `None` returned by `output_backward`. -/
theorem backward_of_unset_cost (s : NNState) (p t : Mat)
    (h : s.cost_function = "") :
    (backward s p t).2 = .error .attrNoneShape := by
  unfold backward
  rw [output_backward_unset s p t h]

/-- A network constructed with zero or one layer dimension has an empty
parameter store. -/
theorem init_params_empty (dims : List ℕ) (acts : List (Option String))
    (ω : ℕ → ℕ → ℕ → ℝ) (h : dims.length ≤ 1) :
    (init dims acts ω).parameters = [] := by
  have hL : dims.length - 1 = 0 := by omega
  simp [init, check_activations, init_params, hL]

/-- `forward` on a state with an empty parameter store fails looking up the
key `"W0"`. -/
theorem forward_empty_params (s : NNState) (x : Mat)
    (h : s.parameters = []) :
    (forward s x).2 = .error (.keyErrorParam (true, 0)) := by
  unfold forward forwardCore
  rw [h]
  rfl

end NN

namespace NN

/-! Claim C10: forward mutates only the forward cache. -/

/-- C10: for every state and input, a call to `forward` leaves the parameter
store, the activation selector list, the stored loss selector, the
regularization coefficient, the gradient mapping and the layer-kind list
unchanged: the forward cache is the only state field it writes. -/
theorem C10_forward_frame (s : NNState) (x : Mat) :
    (forward s x).1.parameters = s.parameters ∧
    (forward s x).1.activations = s.activations ∧
    (forward s x).1.cost_function = s.cost_function ∧
    (forward s x).1.lamb = s.lamb ∧
    (forward s x).1.grads = s.grads ∧
    (forward s x).1.layer_type = s.layer_type :=
  ⟨rfl, rfl, rfl, rfl, rfl, rfl⟩

/-! Claim C9: the losses set the stored selector before computing, so the
selector records the most recent loss call even when the computation fails. -/

/-- C9: `MSELoss` and `CrossEntropyLoss` each set the stored loss selector to
their own name unconditionally — in particular the update also happens on a
run whose value computation fails; the last two conjuncts exhibit a concrete
shape-mismatched prediction/target pair (2×2 against 3×3) on which the value
computation raises a ValueError while the selector is nevertheless updated. -/
theorem C9_selector_set_before_compute :
    (∀ (s : NNState) (p t : Mat),
      (MSELoss s p t).1 = { s with cost_function := "MSELoss" } ∧
      (CrossEntropyLoss s p t).1 = { s with cost_function := "CrossEntropyLoss" }) ∧
    ((MSELoss sNoLoss m22 m33).2 = .error .valueError ∧
      (MSELoss sNoLoss m22 m33).1.cost_function = "MSELoss") ∧
    ((CrossEntropyLoss sNoLoss m22 m33).2 = .error .valueError ∧
      (CrossEntropyLoss sNoLoss m22 m33).1.cost_function = "CrossEntropyLoss") := by
  refine ⟨fun s p t => ⟨rfl, rfl⟩, ⟨?_, rfl⟩, ⟨?_, rfl⟩⟩ <;>
    simp [MSELoss, CrossEntropyLoss, bsub, bmul, bbinE, m22, m33, emap,
      Except.bind, bind]

/-! Claim C5: backward without a prior loss call. -/

/-- C5 (amended): calling `backward` while the stored loss selector is still
unset does fail, but with the `AttributeError` produced by taking `.shape` of
the `None` that `output_backward` returned — not with an explicit
"loss function not selected" condition (which the code nowhere raises). -/
theorem C5_backward_unset_selector (s : NNState) (p t : Mat)
    (h : s.cost_function = "") :
    (backward s p t).2 = .error .attrNoneShape ∧
    (backward s p t).2 ≠ .error .lossNotSelected := by
  have hb := backward_of_unset_cost s p t h
  exact ⟨hb, by rw [hb]; simp⟩

/-- C5 witness: the amended statement instantiated at a concrete
post-forward state with the selector unset. -/
theorem C5_backward_unset_selector_witness :
    (backward sNoLoss m11 m11).2 = .error .attrNoneShape ∧
    (backward sNoLoss m11 m11).2 ≠ .error .lossNotSelected :=
  C5_backward_unset_selector sNoLoss m11 m11 rfl

/-- C5 counterexample: on a network built by the constructor and run through
one forward pass with no loss call, `backward` does not surface the explicit
"loss function not selected" condition the claim describes — it fails with
the `None`-propagation AttributeError instead. -/
theorem C5_counterexample :
    (backward ((forward (init [1, 1] [] omega0) m11).1) m11 m11).2
      = .error .attrNoneShape ∧
    (backward ((forward (init [1, 1] [] omega0) m11).1) m11 m11).2
      ≠ .error .lossNotSelected := by
  constructor
  · apply backward_of_unset_cost
    rfl
  · rw [backward_of_unset_cost _ _ _ rfl]
    simp

end NN

namespace NN

/-! Claim C6: construction with zero or one dimension, and the behaviour of
forward/backward on the resulting empty network. -/

/-- C6 (amended): constructing with zero or one layer dimension succeeds and
yields an empty network (no parameters, so no layers); a subsequent `forward`
fails — but with the KeyError from looking up the non-existent parameter
`"W0"` — and a subsequent `backward` fails with the `None`-propagation
AttributeError; neither failure is the explicit "network has no layers"
condition the spec describes (the code nowhere raises one). -/
theorem C6_empty_network (dims : List ℕ) (acts : List (Option String))
    (ω : ℕ → ℕ → ℕ → ℝ) (x p t : Mat) (h : dims.length ≤ 1) :
    (init dims acts ω).parameters = [] ∧
    (forward (init dims acts ω) x).2 = .error (.keyErrorParam (true, 0)) ∧
    (forward (init dims acts ω) x).2 ≠ .error .noLayers ∧
    (backward (init dims acts ω) p t).2 = .error .attrNoneShape ∧
    (backward (init dims acts ω) p t).2 ≠ .error .noLayers := by
  have hp := init_params_empty dims acts ω h
  have hf := forward_empty_params (init dims acts ω) x hp
  have hb := backward_of_unset_cost (init dims acts ω) p t rfl
  exact ⟨hp, hf, by rw [hf]; simp, hb, by rw [hb]; simp⟩

/-- C6 witness: the amended statement instantiated at a concrete one-entry
dimension list. -/
theorem C6_empty_network_witness :
    (init [5] [] omega0).parameters = [] ∧
    (forward (init [5] [] omega0) m11).2 = .error (.keyErrorParam (true, 0)) ∧
    (forward (init [5] [] omega0) m11).2 ≠ .error .noLayers ∧
    (backward (init [5] [] omega0) m11 m11).2 = .error .attrNoneShape ∧
    (backward (init [5] [] omega0) m11 m11).2 ≠ .error .noLayers :=
  C6_empty_network [5] [] omega0 m11 m11 m11 (by decide)

/-- C6 counterexample: on the empty network built from an empty dimension
list, `forward` does not fail with the explicit "network has no layers"
condition the claim describes — it fails with the KeyError on `"W0"`. -/
theorem C6_counterexample :
    (forward (init [] [] omega0) m11).2 = .error (.keyErrorParam (true, 0)) ∧
    (forward (init [] [] omega0) m11).2 ≠ .error .noLayers := by
  have hp : (init [] [] omega0).parameters = [] := rfl
  have hf := forward_empty_params (init [] [] omega0) m11 hp
  exact ⟨hf, by rw [hf]; simp⟩

end NN

namespace NN

/-! Claim C3: the local derivative used by backward for sigmoid/softmax. -/

/-- C3 (amended): for a layer whose selector is sigmoid or softmax, the local
derivative `__deactivate` produces is `s*(1-s)` where
`s = 1/(1+exp(-Z+1e-10))` — the code adds `1e-10` inside the exponential, so
`s` is not exactly `1/(1+exp(-Z))` as the claim states.  Softmax uses the
identical formula (both selectors share one branch). -/
theorem C3_sigmoid_softmax_deriv (s : NNState) (dA : Mat) (n : ℕ)
    (rec : CacheRec) (Z : Mat) (name : String)
    (hc : pyGet? s.cache ((n : ℤ) - 1) = some rec)
    (ha : pyGet? s.activations ((n : ℤ) - 1) = some (some name))
    (hn : pyLower name = "sigmoid" ∨ pyLower name = "softmax")
    (hz : rec.act = some Z) :
    deactivate s dA n = .ok (.mat (emap (fun z =>
      (1 / (1 + Real.exp (-z + 1e-10))) *
        (1 - 1 / (1 + Real.exp (-z + 1e-10)))) Z)) := by
  rcases hn with h | h <;>
    simp [deactivate, hc, ha, h, hz]

/-- C3 witness: the amended statement instantiated at the concrete sigmoid
state with zero cached pre-activation. -/
theorem C3_sigmoid_softmax_deriv_witness :
    deactivate sSig m11 1 = .ok (.mat (emap (fun z =>
      (1 / (1 + Real.exp (-z + 1e-10))) *
        (1 - 1 / (1 + Real.exp (-z + 1e-10)))) m11)) :=
  C3_sigmoid_softmax_deriv sSig m11 1 ⟨some (m11, m11, m11), some m11⟩ m11
    "sigmoid" rfl rfl (Or.inl (by decide)) rfl

/-- C3 counterexample: at the cached pre-activation `Z = 0` the derivative
the code computes differs from the spec-claimed
`s*(1-s)`, `s = 1/(1+exp(-Z))` (which would equal `1/4` there): the code's
`1e-10` shift inside the exponential makes the value strictly different. -/
theorem C3_counterexample :
    deactivate sSig m11 1 ≠ .ok (.mat (claimedSigDeriv m11)) := by
  have hcode : deactivate sSig m11 1 = .ok (.mat (emap (fun z =>
      (1 / (1 + Real.exp (-z + 1e-10))) *
        (1 - 1 / (1 + Real.exp (-z + 1e-10)))) m11)) := by
    simp [deactivate, sSig, pyGet?, pyLower]
  rw [hcode]
  intro h
  have h2 := congrArg (fun r => match r with
    | Except.ok (Deact.mat M) => M.entry 0 0
    | _ => (0 : ℝ)) h
  simp only [emap, claimedSigDeriv, m11] at h2
  rw [neg_zero, zero_add, Real.exp_zero] at h2
  set E := Real.exp 1e-10 with hE
  have hE1 : 1 < E := by
    rw [hE]
    have := Real.add_one_le_exp (1e-10 : ℝ)
    nlinarith [this]
  have hpos : (0 : ℝ) < 1 + E := by linarith
  have h3 : 1 / (1 + E) * (1 - 1 / (1 + E)) = 1 / 4 := by
    rw [h2]; norm_num
  field_simp at h3
  nlinarith [h3, mul_pos (sub_pos.mpr hE1) (sub_pos.mpr hE1)]

end NN

namespace NN

/-! Claim C4: softmax column normalization. -/

/-- Every in-range entry is bounded by the array maximum `np.max`. -/
theorem le_gmax (m : Mat) (i j : ℕ) (hi : i < m.rows) (hj : j < m.cols) :
    m.entry i j ≤ m.gmax := by
  have hne : (Finset.range m.rows ×ˢ Finset.range m.cols).Nonempty :=
    ⟨(i, j), by simp [hi, hj]⟩
  unfold Mat.gmax
  rw [dif_pos hne]
  have hmem : (i, j) ∈ Finset.range m.rows ×ˢ Finset.range m.cols :=
    Finset.mem_product.mpr ⟨Finset.mem_range.mpr hi, Finset.mem_range.mpr hj⟩
  exact Finset.le_sup' (fun p : ℕ × ℕ => m.entry p.1 p.2) hmem

/-- C4 (amended): the softmax activation normalizes each batch column to
within `1e-10` of `1` — for every column that contains the array-wide maximum
of `Z` (in particular for every column when the batch has one column).  The
code subtracts the global `np.max(Z)` (not a per-column maximum), so columns
far below the global maximum can sum to far less than `1`
(see the counterexample). -/
theorem C4_softmax_column_sum (s : NNState) (Z : Mat) (n j : ℕ) (name : String)
    (ha : pyGet? s.activations ((n : ℤ) - 1) = some (some name))
    (hn : pyLower name = "softmax")
    (hj : j < Z.cols)
    (hmax : ∃ i, i < Z.rows ∧ Z.entry i j = Z.gmax) :
    ∃ A, activate s (some Z) n = .ok (some A, some Z) ∧ A.rows = Z.rows ∧
      |(∑ i in Finset.range A.rows, A.entry i j) - 1| ≤ 1e-10 := by
  have hact : activate s (some Z) n = .ok (some (softmaxM Z), some Z) := by
    simp [activate, ha, hn]
  refine ⟨softmaxM Z, hact, rfl, ?_⟩
  have hsum : (∑ i in Finset.range (softmaxM Z).rows, (softmaxM Z).entry i j)
      = (∑ i in Finset.range Z.rows, Real.exp (Z.entry i j - Z.gmax)) /
        ((∑ k in Finset.range Z.rows, Real.exp (Z.entry k j - Z.gmax)) + 1e-10) := by
    simp only [softmaxM]
    rw [← Finset.sum_div]
  set S := ∑ i in Finset.range Z.rows, Real.exp (Z.entry i j - Z.gmax) with hS
  have hS1 : 1 ≤ S := by
    obtain ⟨i0, hi0, hzi⟩ := hmax
    have h1 : Real.exp (Z.entry i0 j - Z.gmax) = 1 := by
      rw [hzi, sub_self, Real.exp_zero]
    have h2 : Real.exp (Z.entry i0 j - Z.gmax) ≤ S :=
      Finset.single_le_sum (f := fun i => Real.exp (Z.entry i j - Z.gmax))
        (fun i _ => (Real.exp_pos _).le) (Finset.mem_range.mpr hi0)
    rw [h1] at h2
    exact h2
  have hε : (0 : ℝ) < 1e-10 := by norm_num
  have hpos : (0 : ℝ) < S + 1e-10 := by linarith
  rw [hsum]
  have hle : S / (S + 1e-10) ≤ 1 := by
    rw [div_le_one hpos]
    linarith
  have heq : 1 - S / (S + 1e-10) = 1e-10 / (S + 1e-10) := by
    field_simp
  rw [abs_sub_comm, abs_of_nonneg (by linarith), heq]
  exact div_le_self hε.le (by linarith)

/-- C4 witness: the amended statement at a single-column (batch 1)
pre-activation, which necessarily contains the global maximum. -/
theorem C4_softmax_column_sum_witness :
    ∃ A, activate sSoft (some m11) 1 = .ok (some A, some m11) ∧
      A.rows = m11.rows ∧
      |(∑ i in Finset.range A.rows, A.entry i 0) - 1| ≤ 1e-10 := by
  have hg : m11.gmax = 0 := by
    have hne : (Finset.range m11.rows ×ˢ Finset.range m11.cols).Nonempty :=
      ⟨(0, 0), by simp [m11]⟩
    unfold Mat.gmax
    rw [dif_pos hne]
    exact Finset.sup'_const hne 0
  exact C4_softmax_column_sum sSoft m11 1 0 "softmax" (by decide) (by decide)
    (by decide) ⟨0, by decide, by rw [hg]; rfl⟩

/-- The global maximum of `Zsm` is the entry `1` in column 1. -/
theorem Zsm_gmax : Zsm.gmax = 1 := by
  have hne : (Finset.range Zsm.rows ×ˢ Finset.range Zsm.cols).Nonempty :=
    ⟨(0, 1), by simp [Zsm]⟩
  unfold Mat.gmax
  rw [dif_pos hne]
  apply le_antisymm
  · apply Finset.sup'_le
    intro p _
    simp only [Zsm]
    split <;> norm_num
  · have h1 : ((0, 1) : ℕ × ℕ) ∈ Finset.range Zsm.rows ×ˢ Finset.range Zsm.cols := by
      simp [Zsm]
    have h2 := Finset.le_sup' (fun p : ℕ × ℕ => Zsm.entry p.1 p.2) h1
    simpa [Zsm] using h2

/-- C4 counterexample: with pre-activation `Z = [[0, 1]]` (one unit, batch 2)
the softmax output of column 0 sums to `exp(-1)/(exp(-1)+1e-10)`, which is
further than `1e-10` away from `1` — the global (not per-column) maximum
shift makes the claimed normalization fail for this batch column. -/
theorem C4_counterexample :
    ∃ A, activate sSoft (some Zsm) 1 = .ok (some A, some Zsm) ∧
      1e-10 < |(∑ i in Finset.range A.rows, A.entry i 0) - 1| := by
  have hact : activate sSoft (some Zsm) 1 = .ok (some (softmaxM Zsm), some Zsm) := by
    simp [activate, pyGet?, sSoft, pyLower]
  refine ⟨softmaxM Zsm, hact, ?_⟩
  have hsum : (∑ i in Finset.range (softmaxM Zsm).rows, (softmaxM Zsm).entry i 0)
      = Real.exp (-1) / (Real.exp (-1) + 1e-10) := by
    show (∑ i in Finset.range 1, (softmaxM Zsm).entry i 0) = _
    rw [Finset.sum_range_one]
    simp only [softmaxM, Zsm_gmax]
    show Real.exp (Zsm.entry 0 0 - 1) /
      ((∑ k in Finset.range 1, Real.exp (Zsm.entry k 0 - 1)) + 1e-10) = _
    rw [Finset.sum_range_one]
    norm_num [Zsm]
  rw [hsum]
  have hu0 : (0 : ℝ) < Real.exp (-1) := Real.exp_pos _
  have hu : Real.exp (-1) ≤ 1 / 2 := by
    rw [Real.exp_neg]
    have h2 : (2 : ℝ) ≤ Real.exp 1 := by
      have := Real.add_one_le_exp (1 : ℝ)
      linarith
    have h3 : (Real.exp 1)⁻¹ ≤ (2 : ℝ)⁻¹ :=
      inv_le_inv_of_le (by norm_num) h2
    simpa using h3
  set u := Real.exp (-1) with hudef
  have hpos : (0 : ℝ) < u + 1e-10 := by positivity
  have hlt : u / (u + 1e-10) < 1 := by
    rw [div_lt_one hpos]
    norm_num
  rw [abs_sub_comm, abs_of_nonneg (by linarith)]
  have heq : 1 - u / (u + 1e-10) = 1e-10 / (u + 1e-10) := by
    field_simp
  rw [heq, lt_div_iff hpos]
  nlinarith

end NN

namespace NN

/-! General evaluation lemmas for the monadic numpy operations. -/

/-- Bind of a successful `Except` computation. -/
@[simp] theorem bindE_ok {α β : Type} (a : α) (f : α → Except Err β) :
    ((Except.ok a : Except Err α) >>= f) = f a := rfl

/-- Bind of a failed `Except` computation. -/
@[simp] theorem bindE_error {α β : Type} (e : Err) (f : α → Except Err β) :
    ((Except.error e : Except Err α) >>= f) = .error e := rfl

/-- `bbinE` on broadcast-compatible shapes. -/
theorem bbinE_ok (f : ℝ → ℝ → ℝ) (a b : Mat)
    (h1 : a.rows = b.rows ∨ a.rows = 1 ∨ b.rows = 1)
    (h2 : a.cols = b.cols ∨ a.cols = 1 ∨ b.cols = 1) :
    bbinE f a b = .ok ⟨bcastLen a.rows b.rows, bcastLen a.cols b.cols,
      fun i j => f (a.entry (bidx a.rows i) (bidx a.cols j))
                   (b.entry (bidx b.rows i) (bidx b.cols j))⟩ :=
  if_pos ⟨h1, h2⟩

/-- `bbinE` on two matrices with syntactically equal shapes. -/
theorem bbinE_ok_pair (f : ℝ → ℝ → ℝ) (R C : ℕ) (g h : ℕ → ℕ → ℝ) :
    bbinE f ⟨R, C, g⟩ ⟨R, C, h⟩ = .ok ⟨bcastLen R R, bcastLen C C,
      fun i j => f (g (bidx R i) (bidx C j)) (h (bidx R i) (bidx C j))⟩ :=
  bbinE_ok f _ _ (Or.inl rfl) (Or.inl rfl)

/-- `dotE` on shapes with matching inner dimension. -/
theorem dotE_ok (a b : Mat) (h : a.cols = b.rows) :
    dotE a b = .ok ⟨a.rows, b.cols,
      fun i j => ∑ k in Finset.range a.cols, a.entry i k * b.entry k j⟩ :=
  if_pos h

/-- Broadcasting two equal axis lengths gives that length. -/
theorem bcastLen_self (a : ℕ) : bcastLen a a = a := by
  unfold bcastLen
  split <;> omega

/-- With `lamb = 0` the regularization term is `0` (the accumulation loop is
skipped, and the final scaling multiplies by zero anyway). -/
theorem regCost_zero (s : NNState) (p : Mat) (h : s.lamb = 0) :
    regCost s p = .ok 0 := by
  unfold regCost
  rw [h]
  simp

end NN

namespace NN

/-! Claim C8: loss non-negativity with `lamb = 0`. -/

/-- A broadcast index stays in range on its own axis. -/
theorem bidx_lt_left (a b i : ℕ) (hi : i < bcastLen a b) : bidx a i < a := by
  unfold bcastLen at hi
  unfold bidx
  by_cases h : a = 1 <;> simp [h] at hi ⊢ <;> omega

/-- A broadcast index of an in-range index is in range. -/
theorem bidx_lt_self (a i : ℕ) (hi : i < a) : bidx a i < a := by
  unfold bidx
  split <;> omega

/-- A broadcast index stays in range on the other axis, given compatibility. -/
theorem bidx_lt_right (a b i : ℕ) (hc : a = b ∨ a = 1 ∨ b = 1)
    (hi : i < bcastLen a b) : bidx b i < b := by
  unfold bcastLen at hi
  unfold bidx
  by_cases h : a = 1 <;> by_cases h2 : b = 1 <;> simp [h, h2] at hi ⊢ <;> omega

/-- One cross-entropy summand is non-positive when the target weight is in
`[0,1]` and the prediction is at least `1e-8` away from both `0` and `1`. -/
theorem ce_term_nonpos (a q : ℝ) (ha1 : 0 ≤ a) (ha2 : a ≤ 1)
    (hq1 : 1e-8 ≤ q) (hq2 : q ≤ 1 - 1e-8) :
    a * Real.log (q + 1e-8) + (1 - a) * Real.log (1 - q + 1e-8) ≤ 0 := by
  have hlog1 : Real.log (q + 1e-8) ≤ 0 :=
    Real.log_nonpos (by linarith) (by linarith)
  have hlog2 : Real.log (1 - q + 1e-8) ≤ 0 :=
    Real.log_nonpos (by linarith) (by linarith)
  nlinarith [mul_nonneg ha1 (neg_nonneg.mpr hlog1),
    mul_nonneg (by linarith : (0 : ℝ) ≤ 1 - a) (neg_nonneg.mpr hlog2)]

/-- C8 (amended): with regularization coefficient `0`, `MSELoss` is
non-negative for every broadcast-compatible prediction/target pair, and
`CrossEntropyLoss` is non-negative for every broadcast-compatible pair whose
prediction entries lie in `[1e-8, 1-1e-8]` and whose target entries lie in
`[0, 1]`.  (On `(0,1)` alone the cross-entropy claim fails: the `1e-8`
epsilon added inside the logarithms makes predictions within `1e-8` of
either end produce a positive logarithm — see the counterexample.) -/
theorem C8_loss_nonneg (s : NNState) (p t : Mat) (hl : s.lamb = 0) :
    ((p.rows = t.rows ∨ p.rows = 1 ∨ t.rows = 1) →
      (p.cols = t.cols ∨ p.cols = 1 ∨ t.cols = 1) →
      ∃ v, (MSELoss s p t).2 = .ok v ∧ 0 ≤ v) ∧
    ((t.rows = p.rows ∨ t.rows = 1 ∨ p.rows = 1) →
      (t.cols = p.cols ∨ t.cols = 1 ∨ p.cols = 1) →
      (∀ i j, i < p.rows → j < p.cols →
        1e-8 ≤ p.entry i j ∧ p.entry i j ≤ 1 - 1e-8) →
      (∀ i j, i < t.rows → j < t.cols →
        0 ≤ t.entry i j ∧ t.entry i j ≤ 1) →
      ∃ v, (CrossEntropyLoss s p t).2 = .ok v ∧ 0 ≤ v) := by
  constructor
  · intro h1 h2
    have hd := bbinE_ok (fun x y => x - y) p t h1 h2
    have heq : (MSELoss s p t).2 = .ok ((emap (fun x => x ^ 2)
        (⟨bcastLen p.rows t.rows, bcastLen p.cols t.cols,
          fun i j => p.entry (bidx p.rows i) (bidx p.cols j) -
            t.entry (bidx t.rows i) (bidx t.cols j)⟩ : Mat)).mean / 2 + 0) := by
      simp only [MSELoss, bsub]
      rw [hd]
      simp only [bindE_ok]
      rw [regCost_zero { s with cost_function := "MSELoss" } p hl]
      simp only [bindE_ok]
    refine ⟨_, heq, ?_⟩
    have hsq : (0 : ℝ) ≤ (emap (fun x => x ^ 2)
        (⟨bcastLen p.rows t.rows, bcastLen p.cols t.cols,
          fun i j => p.entry (bidx p.rows i) (bidx p.cols j) -
            t.entry (bidx t.rows i) (bidx t.cols j)⟩ : Mat)).mean / 2 := by
      simp only [Mat.mean, totalSum, emap]
      apply div_nonneg _ (by norm_num)
      apply div_nonneg _ (by positivity)
      apply Finset.sum_nonneg
      intro i _
      apply Finset.sum_nonneg
      intro j _
      positivity
    linarith [hsq]
  · intro h1 h2 hp ht
    have hu := bbinE_ok (fun x y => x * y) t
      (emap Real.log (emap (fun x => x + 1e-8) p)) h1 h2
    have hv := bbinE_ok (fun x y => x * y) (emap (fun x => 1 - x) t)
      (emap Real.log (emap (fun x => 1 - x + 1e-8) p)) h1 h2
    have heq : (CrossEntropyLoss s p t).2 = .ok
        (-(1 / (p.cols : ℝ)) * totalSum
          (⟨bcastLen (bcastLen t.rows p.rows) (bcastLen t.rows p.rows),
            bcastLen (bcastLen t.cols p.cols) (bcastLen t.cols p.cols),
            fun i j =>
              t.entry (bidx t.rows (bidx (bcastLen t.rows p.rows) i))
                  (bidx t.cols (bidx (bcastLen t.cols p.cols) j)) *
                Real.log (p.entry (bidx p.rows (bidx (bcastLen t.rows p.rows) i))
                  (bidx p.cols (bidx (bcastLen t.cols p.cols) j)) + 1e-8) +
              (1 - t.entry (bidx t.rows (bidx (bcastLen t.rows p.rows) i))
                  (bidx t.cols (bidx (bcastLen t.cols p.cols) j))) *
                Real.log (1 - p.entry (bidx p.rows (bidx (bcastLen t.rows p.rows) i))
                  (bidx p.cols (bidx (bcastLen t.cols p.cols) j)) + 1e-8)⟩ : Mat) + 0) := by
      simp only [CrossEntropyLoss, bmul, badd]
      rw [hu]
      simp only [bindE_ok]
      rw [hv]
      simp only [bindE_ok, emap]
      rw [bbinE_ok_pair]
      simp only [bindE_ok]
      rw [regCost_zero { s with cost_function := "CrossEntropyLoss" } p hl]
      simp only [bindE_ok]
    refine ⟨_, heq, ?_⟩
    have hc : (0 : ℝ) ≤ 1 / (p.cols : ℝ) := by positivity
    have hS : totalSum
        (⟨bcastLen (bcastLen t.rows p.rows) (bcastLen t.rows p.rows),
          bcastLen (bcastLen t.cols p.cols) (bcastLen t.cols p.cols),
          fun i j =>
            t.entry (bidx t.rows (bidx (bcastLen t.rows p.rows) i))
                (bidx t.cols (bidx (bcastLen t.cols p.cols) j)) *
              Real.log (p.entry (bidx p.rows (bidx (bcastLen t.rows p.rows) i))
                (bidx p.cols (bidx (bcastLen t.cols p.cols) j)) + 1e-8) +
            (1 - t.entry (bidx t.rows (bidx (bcastLen t.rows p.rows) i))
                (bidx t.cols (bidx (bcastLen t.cols p.cols) j))) *
              Real.log (1 - p.entry (bidx p.rows (bidx (bcastLen t.rows p.rows) i))
                (bidx p.cols (bidx (bcastLen t.cols p.cols) j)) + 1e-8)⟩ : Mat) ≤ 0 := by
      unfold totalSum
      dsimp only
      rw [bcastLen_self, bcastLen_self]
      apply Finset.sum_nonpos
      intro i hi
      apply Finset.sum_nonpos
      intro j hj
      rw [Finset.mem_range] at hi hj
      have hti : bidx t.rows (bidx (bcastLen t.rows p.rows) i) < t.rows :=
        bidx_lt_left _ _ _ (bidx_lt_self _ _ hi)
      have hpi : bidx p.rows (bidx (bcastLen t.rows p.rows) i) < p.rows :=
        bidx_lt_right _ _ _ h1 (bidx_lt_self _ _ hi)
      have htj : bidx t.cols (bidx (bcastLen t.cols p.cols) j) < t.cols :=
        bidx_lt_left _ _ _ (bidx_lt_self _ _ hj)
      have hpj : bidx p.cols (bidx (bcastLen t.cols p.cols) j) < p.cols :=
        bidx_lt_right _ _ _ h2 (bidx_lt_self _ _ hj)
      obtain ⟨hp1, hp2⟩ := hp _ _ hpi hpj
      obtain ⟨ht1, ht2⟩ := ht _ _ hti htj
      exact ce_term_nonpos _ _ ht1 ht2 hp1 hp2
    nlinarith [mul_nonneg hc (neg_nonneg.mpr hS)]

end NN


namespace NN

/-- C8 witness: the amended statement at prediction `1/2`, target `0`,
batch 1, regularization coefficient `0`. -/
theorem C8_loss_nonneg_witness :
    (∃ v, (MSELoss sSoft mHalf m11).2 = .ok v ∧ 0 ≤ v) ∧
    (∃ v, (CrossEntropyLoss sSoft mHalf m11).2 = .ok v ∧ 0 ≤ v) := by
  have h := C8_loss_nonneg sSoft mHalf m11 rfl
  exact ⟨h.1 (Or.inl rfl) (Or.inl rfl),
    h.2 (Or.inl rfl) (Or.inl rfl)
      (fun i j _ _ => by norm_num [mHalf])
      (fun i j _ _ => by norm_num [m11])⟩

/-- C8 counterexample: the prediction `1 - 1e-9` lies in the open interval
`(0,1)`, yet with target `1`, batch 1 and `lamb = 0` the cross-entropy loss is
`-log(1 - 1e-9 + 1e-8) < 0`: the `1e-8` epsilon pushes the logarithm argument
above `1`, so the loss is negative, contradicting the claimed non-negativity
on all of `(0,1)`. -/
theorem C8_counterexample :
    (∀ i j, i < pCE.rows → j < pCE.cols →
      0 < pCE.entry i j ∧ pCE.entry i j < 1) ∧
    ∃ v, (CrossEntropyLoss sSoft pCE tCE).2 = .ok v ∧ v < 0 := by
  constructor
  · intro i j _ _
    norm_num [pCE]
  · have heq : (CrossEntropyLoss sSoft pCE tCE).2
        = .ok (-(Real.log (1 - 1e-9 + 1e-8))) := by
      simp only [CrossEntropyLoss, bmul, badd, emap, pCE, tCE]
      rw [bbinE_ok_pair]
      simp only [bindE_ok]
      rw [bbinE_ok_pair]
      simp only [bindE_ok]
      rw [bbinE_ok_pair]
      simp only [bindE_ok]
      rw [regCost_zero _ _ rfl]
      simp only [bindE_ok]
      norm_num [totalSum, bcastLen, bidx, Finset.sum_range_one]
    refine ⟨_, heq, ?_⟩
    have hlog : (0 : ℝ) < Real.log (1 - 1e-9 + 1e-8) :=
      Real.log_pos (by norm_num)
    linarith

end NN

namespace NN

/-! Claim C2: regularization monotonicity in the coefficient. -/

/-- `sqsum` is non-negative. -/
theorem sqsum_nonneg (m : Mat) : 0 ≤ sqsum m := by
  apply Finset.sum_nonneg
  intro i _
  apply Finset.sum_nonneg
  intro j _
  positivity

/-- `sqsum` of an all-zero matrix vanishes. -/
theorem sqsum_zero (m : Mat)
    (h : ∀ a b, a < m.rows → b < m.cols → m.entry a b = 0) : sqsum m = 0 := by
  apply Finset.sum_eq_zero
  intro i hi
  apply Finset.sum_eq_zero
  intro j hj
  rw [Finset.mem_range] at hi hj
  rw [h i j hi hj]
  ring

/-- `sqsum` is positive as soon as one in-range entry is non-zero. -/
theorem sqsum_pos (m : Mat) (a b : ℕ) (ha : a < m.rows) (hb : b < m.cols)
    (hne : m.entry a b ≠ 0) : 0 < sqsum m := by
  have h1 : 0 < m.entry a b ^ 2 :=
    lt_of_le_of_ne (sq_nonneg _) (Ne.symm (pow_ne_zero 2 hne))
  have h2 : m.entry a b ^ 2 ≤ ∑ j in Finset.range m.cols, m.entry a j ^ 2 :=
    Finset.single_le_sum (f := fun j => m.entry a j ^ 2)
      (fun j _ => sq_nonneg _) (Finset.mem_range.mpr hb)
  have h3 : (∑ j in Finset.range m.cols, m.entry a j ^ 2) ≤ sqsum m :=
    Finset.single_le_sum (f := fun i => ∑ j in Finset.range m.cols, m.entry i j ^ 2)
      (fun i _ => Finset.sum_nonneg fun j _ => sq_nonneg _)
      (Finset.mem_range.mpr ha)
  linarith

/-- `regSumAux` only reads the parameter store. -/
theorem regSumAux_params (s1 s2 : NNState) (h : s1.parameters = s2.parameters) :
    ∀ n, regSumAux s1 n = regSumAux s2 n := by
  intro n
  induction n with
  | zero => rfl
  | succ n ih => simp [regSumAux, ih, h]

/-- Evaluation of the regularization accumulation loop: when every needed
weight key is present it succeeds, its value is non-negative, it vanishes
exactly when the summed weights are all zero, and it is positive otherwise. -/
theorem regSumAux_spec (s : NNState) (n : ℕ)
    (hW : ∀ i, i < n → ∃ W, dictGet s.parameters (true, i + 1) = some W) :
    ∃ r, regSumAux s n = .ok r ∧ 0 ≤ r ∧
      ((∀ i, i < n → ∀ W, dictGet s.parameters (true, i + 1) = some W →
          ∀ a b, a < W.rows → b < W.cols → W.entry a b = 0) → r = 0) ∧
      (¬ (∀ i, i < n → ∀ W, dictGet s.parameters (true, i + 1) = some W →
          ∀ a b, a < W.rows → b < W.cols → W.entry a b = 0) → 0 < r) := by
  induction n with
  | zero =>
    refine ⟨0, rfl, le_refl 0, fun _ => rfl, fun h => ?_⟩
    exact absurd (fun i hi => absurd hi (Nat.not_lt_zero i)) h
  | succ n ih =>
    obtain ⟨W, hWn⟩ := hW n (by omega)
    obtain ⟨r, hr, hr0, hz, hnz⟩ := ih (fun i hi => hW i (by omega))
    refine ⟨r + sqsum W, ?_, ?_, ?_, ?_⟩
    · simp [regSumAux, hr, hWn]
    · have := sqsum_nonneg W
      linarith
    · intro hall
      have hrz : r = 0 := hz (fun i hi => hall i (by omega))
      have hWz : sqsum W = 0 :=
        sqsum_zero W (fun a b ha hb => hall n (by omega) W hWn a b ha hb)
      rw [hrz, hWz, add_zero]
    · intro hnall
      by_cases hZn : ∀ i, i < n → ∀ W2,
          dictGet s.parameters (true, i + 1) = some W2 →
          ∀ a b, a < W2.rows → b < W2.cols → W2.entry a b = 0
      · push_neg at hnall
        obtain ⟨i, hi, W2, hW2, a, b, ha, hb, hne⟩ := hnall
        have hieq : i = n := by
          by_contra hneq
          exact hne (hZn i (by omega) W2 hW2 a b ha hb)
        subst hieq
        rw [hWn] at hW2
        injection hW2 with hW2
        subst hW2
        have := sqsum_pos W a b ha hb hne
        linarith
      · have h1 := hnz hZn
        have h2 := sqsum_nonneg W
        linarith

/-- Evaluation of the shared regularization term: whatever `lamb` is, the
returned value equals `lamb/(2*batch)` times the accumulated squared norm
(when `lamb = 0` both sides are zero). -/
theorem regCost_eq (s : NNState) (p : Mat) (r : ℝ)
    (hr : regSumAux s s.cache.length = .ok r) :
    regCost s p = .ok (s.lamb / (2 * (p.cols : ℝ)) * r) := by
  unfold regCost
  by_cases hl : s.lamb = 0
  · rw [if_neg (not_not_intro hl)]
    simp [hl]
  · rw [if_pos hl, hr]
    simp

/-- Evaluation of `MSELoss` on broadcast-compatible inputs when the
regularization loop evaluates to `r`. -/
theorem MSELoss_eval (s : NNState) (p t : Mat)
    (h1 : p.rows = t.rows ∨ p.rows = 1 ∨ t.rows = 1)
    (h2 : p.cols = t.cols ∨ p.cols = 1 ∨ t.cols = 1)
    (r : ℝ) (hr : regSumAux s s.cache.length = .ok r) :
    (MSELoss s p t).2 = .ok ((emap (fun x => x ^ 2)
      (⟨bcastLen p.rows t.rows, bcastLen p.cols t.cols,
        fun i j => p.entry (bidx p.rows i) (bidx p.cols j) -
          t.entry (bidx t.rows i) (bidx t.cols j)⟩ : Mat)).mean / 2
      + s.lamb / (2 * (p.cols : ℝ)) * r) := by
  have hd := bbinE_ok (fun x y => x - y) p t h1 h2
  have hr1 : regSumAux { s with cost_function := "MSELoss" }
      ({ s with cost_function := "MSELoss" } : NNState).cache.length = .ok r := by
    rw [regSumAux_params { s with cost_function := "MSELoss" } s rfl]
    exact hr
  have hrc := regCost_eq { s with cost_function := "MSELoss" } p r hr1
  simp only [MSELoss, bsub]
  rw [hd]
  simp only [bindE_ok]
  rw [hrc]
  simp only [bindE_ok]

/-- Evaluation of `CrossEntropyLoss` on broadcast-compatible inputs when the
regularization loop evaluates to `r`. -/
theorem CrossEntropyLoss_eval (s : NNState) (p t : Mat)
    (h1 : t.rows = p.rows ∨ t.rows = 1 ∨ p.rows = 1)
    (h2 : t.cols = p.cols ∨ t.cols = 1 ∨ p.cols = 1)
    (r : ℝ) (hr : regSumAux s s.cache.length = .ok r) :
    (CrossEntropyLoss s p t).2 = .ok
      (-(1 / (p.cols : ℝ)) * totalSum
        (⟨bcastLen (bcastLen t.rows p.rows) (bcastLen t.rows p.rows),
          bcastLen (bcastLen t.cols p.cols) (bcastLen t.cols p.cols),
          fun i j =>
            t.entry (bidx t.rows (bidx (bcastLen t.rows p.rows) i))
                (bidx t.cols (bidx (bcastLen t.cols p.cols) j)) *
              Real.log (p.entry (bidx p.rows (bidx (bcastLen t.rows p.rows) i))
                (bidx p.cols (bidx (bcastLen t.cols p.cols) j)) + 1e-8) +
            (1 - t.entry (bidx t.rows (bidx (bcastLen t.rows p.rows) i))
                (bidx t.cols (bidx (bcastLen t.cols p.cols) j))) *
              Real.log (1 - p.entry (bidx p.rows (bidx (bcastLen t.rows p.rows) i))
                (bidx p.cols (bidx (bcastLen t.cols p.cols) j)) + 1e-8)⟩ : Mat)
      + s.lamb / (2 * (p.cols : ℝ)) * r) := by
  have hu := bbinE_ok (fun x y => x * y) t
    (emap Real.log (emap (fun x => x + 1e-8) p)) h1 h2
  have hv := bbinE_ok (fun x y => x * y) (emap (fun x => 1 - x) t)
    (emap Real.log (emap (fun x => 1 - x + 1e-8) p)) h1 h2
  have hr1 : regSumAux { s with cost_function := "CrossEntropyLoss" }
      ({ s with cost_function := "CrossEntropyLoss" } : NNState).cache.length = .ok r := by
    rw [regSumAux_params { s with cost_function := "CrossEntropyLoss" } s rfl]
    exact hr
  have hrc := regCost_eq { s with cost_function := "CrossEntropyLoss" } p r hr1
  simp only [CrossEntropyLoss, bmul, badd]
  rw [hu]
  simp only [bindE_ok]
  rw [hv]
  simp only [bindE_ok, emap]
  rw [bbinE_ok_pair]
  simp only [bindE_ok]
  rw [hrc]
  simp only [bindE_ok]

end NN

namespace NN

/-- C2: for both `MSELoss` and `CrossEntropyLoss`, with the weight/bias
tensors, the forward cache and the prediction/target pair held fixed,
increasing the regularization coefficient from `l1` to `l2` (with
`0 ≤ l1 < l2`) strictly increases the returned loss value, or holds it equal
exactly when all weight entries are zero.  The hypotheses require a positive
batch, a cache covering every layer (the state after a forward pass), every
weight key present, and broadcast-compatible shapes. -/
theorem C2_reg_monotone (s : NNState) (p t : Mat) (l1 l2 : ℝ)
    (h0 : 0 ≤ l1) (hlt : l1 < l2)
    (hcols : 0 < p.cols)
    (hcache : s.cache.length = s.parameters.length / 2)
    (hW : ∀ i, i < s.cache.length →
      ∃ W, dictGet s.parameters (true, i + 1) = some W)
    (hbr : p.rows = t.rows ∨ p.rows = 1 ∨ t.rows = 1)
    (hbc : p.cols = t.cols ∨ p.cols = 1 ∨ t.cols = 1)
    (hbr2 : t.rows = p.rows ∨ t.rows = 1 ∨ p.rows = 1)
    (hbc2 : t.cols = p.cols ∨ t.cols = 1 ∨ p.cols = 1) :
    (∃ v1 v2, (MSELoss { s with lamb := l1 } p t).2 = .ok v1 ∧
      (MSELoss { s with lamb := l2 } p t).2 = .ok v2 ∧
      (v1 < v2 ∨ (AllWeightsZero s ∧ v1 = v2))) ∧
    (∃ v1 v2, (CrossEntropyLoss { s with lamb := l1 } p t).2 = .ok v1 ∧
      (CrossEntropyLoss { s with lamb := l2 } p t).2 = .ok v2 ∧
      (v1 < v2 ∨ (AllWeightsZero s ∧ v1 = v2))) := by
  obtain ⟨r, hr, hr0, hz, hnz⟩ := regSumAux_spec s s.cache.length hW
  have hr1 : regSumAux { s with lamb := l1 }
      ({ s with lamb := l1 } : NNState).cache.length = .ok r := by
    rw [regSumAux_params { s with lamb := l1 } s rfl]
    exact hr
  have hr2 : regSumAux { s with lamb := l2 }
      ({ s with lamb := l2 } : NNState).cache.length = .ok r := by
    rw [regSumAux_params { s with lamb := l2 } s rfl]
    exact hr
  have hc2 : (0 : ℝ) < 2 * (p.cols : ℝ) := by
    have : (0 : ℝ) < (p.cols : ℝ) := by exact_mod_cast hcols
    linarith
  have key : ∀ base : ℝ,
      base + l1 / (2 * (p.cols : ℝ)) * r < base + l2 / (2 * (p.cols : ℝ)) * r ∨
      (AllWeightsZero s ∧
        base + l1 / (2 * (p.cols : ℝ)) * r = base + l2 / (2 * (p.cols : ℝ)) * r) := by
    intro base
    by_cases hAZ : AllWeightsZero s
    · right
      refine ⟨hAZ, ?_⟩
      have hrz : r = 0 := by
        apply hz
        intro i hi
        exact hAZ i (by omega)
      rw [hrz, mul_zero, mul_zero]
    · left
      have hrpos : 0 < r := by
        apply hnz
        intro hall
        apply hAZ
        intro i hi
        exact hall i (by omega)
      have hfrac : l1 / (2 * (p.cols : ℝ)) < l2 / (2 * (p.cols : ℝ)) := by
        rw [div_lt_div_iff hc2 hc2]
        exact mul_lt_mul_of_pos_right hlt hc2
      exact add_lt_add_left (mul_lt_mul_of_pos_right hfrac hrpos) base
  constructor
  · exact ⟨_, _, MSELoss_eval { s with lamb := l1 } p t hbr hbc r hr1,
      MSELoss_eval { s with lamb := l2 } p t hbr hbc r hr2, key _⟩
  · exact ⟨_, _, CrossEntropyLoss_eval { s with lamb := l1 } p t hbr2 hbc2 r hr1,
      CrossEntropyLoss_eval { s with lamb := l2 } p t hbr2 hbc2 r hr2, key _⟩

end NN

namespace NN

/-- C2 witness: the statement instantiated at the concrete one-layer state
`sSig` (whose single weight is the zero 1×1 matrix, exercising the equal-loss
branch) with `l1 = 0`, `l2 = 1`. -/
theorem C2_reg_monotone_witness :
    (∃ v1 v2, (MSELoss { sSig with lamb := (0 : ℝ) } m11 m11).2 = .ok v1 ∧
      (MSELoss { sSig with lamb := (1 : ℝ) } m11 m11).2 = .ok v2 ∧
      (v1 < v2 ∨ (AllWeightsZero sSig ∧ v1 = v2))) ∧
    (∃ v1 v2, (CrossEntropyLoss { sSig with lamb := (0 : ℝ) } m11 m11).2 = .ok v1 ∧
      (CrossEntropyLoss { sSig with lamb := (1 : ℝ) } m11 m11).2 = .ok v2 ∧
      (v1 < v2 ∨ (AllWeightsZero sSig ∧ v1 = v2))) :=
  C2_reg_monotone sSig m11 m11 0 1 le_rfl (by norm_num) (by decide) (by decide)
    (fun i hi => by
      have h0 : i = 0 := by
        simpa [sSig] using hi
      subst h0
      exact ⟨m11, rfl⟩)
    (Or.inl rfl) (Or.inl rfl) (Or.inl rfl) (Or.inl rfl)

end NN

namespace NN

/-! Claim C7: activation-selector padding and indexing. -/

/-- Length of the parameter list built by one `init_params` call body. -/
theorem flatMap_two_length {α β : Type} (f g : α → β) (l : List α) :
    (l.flatMap (fun i => [f i, g i])).length = 2 * l.length := by
  induction l with
  | nil => rfl
  | cons a l ih =>
    simp only [List.flatMap_cons, List.length_append, List.length_cons,
      List.length_nil, List.length_cons, ih]
    omega

/-- After construction the activation list is at least as long as the layer
count (`check_activations` pads it). -/
theorem init_acts_length (dims : List ℕ) (acts : List (Option String))
    (ω : ℕ → ℕ → ℕ → ℝ) :
    (init dims acts ω).parameters.length / 2 ≤ (init dims acts ω).activations.length := by
  unfold init check_activations init_params
  simp only [List.length_append, List.length_replicate, List.nil_append]
  rw [flatMap_two_length]
  simp only [List.length_range']
  omega

/-- The constructed cache is empty. -/
theorem init_cache (dims : List ℕ) (acts : List (Option String))
    (ω : ℕ → ℕ → ℕ → ℝ) : (init dims acts ω).cache = [] := rfl

/-- `__activate` cannot raise the activation IndexError when the selector
index is present. -/
theorem activate_ne_act_error (s : NNState) (oZ : Option Mat) (n : ℕ)
    (h : (pyGet? s.activations ((n : ℤ) - 1)).isSome) :
    activate s oZ n ≠ .error .indexErrorActivations := by
  unfold activate
  split
  · rename_i hs
    rw [hs] at h
    simp at h
  · intro hcon
    cases hcon
  · split
    · split
      · intro hcon; cases hcon
      · intro hcon; cases hcon
    · intro hcon; cases hcon

/-- A non-negative in-range Python index is present. -/
theorem pyGet_isSome_of_lt {α : Type} (l : List α) (n : ℕ) (h : n < l.length) :
    (pyGet? l ((n + 1 : ℤ) - 1)).isSome := by
  have he : ((n + 1 : ℤ) - 1) = (n : ℤ) := by ring
  rw [he]
  unfold pyGet?
  rw [if_pos (by positivity)]
  rw [List.get?_eq_get (by simpa using h)]
  rfl

/-- Python `l[-1]` on a non-empty list is present. -/
theorem pyGet_neg_one_isSome {α : Type} (l : List α) (h : 0 < l.length) :
    (pyGet? l ((0 : ℤ) - 1)).isSome := by
  unfold pyGet?
  rw [if_neg (by norm_num)]
  rw [if_pos (by norm_num; omega)]
  rw [List.get?_eq_get (by norm_num; omega)]
  rfl

/-- `__deactivate` cannot raise the activation IndexError when the layer
index is bounded by the selector-list length. -/
theorem deactivate_ne_act_error (s : NNState) (dA : Mat) (n : ℕ)
    (hn : n ≤ s.activations.length)
    (h0 : n = 0 → 0 < s.activations.length) :
    deactivate s dA n ≠ .error .indexErrorActivations := by
  have hsome : (pyGet? s.activations ((n : ℤ) - 1)).isSome := by
    match n with
    | 0 => exact pyGet_neg_one_isSome _ (h0 rfl)
    | m + 1 =>
      have : ((m + 1 : ℕ) : ℤ) = ((m : ℤ) + 1) := by push_cast; ring
      rw [this]
      exact pyGet_isSome_of_lt _ m (by omega)
  unfold deactivate
  split
  · intro hcon; cases hcon
  · split
    · rename_i hs
      rw [hs] at hsome
      simp at hsome
    · intro hcon; cases hcon
    · split
      · split
        · intro hcon; cases hcon
        · intro hcon; cases hcon
      · split
        · intro hcon; cases hcon
        · split
          · split
            · intro hcon; cases hcon
            · intro hcon; cases hcon
          · intro hcon; cases hcon

end NN

namespace NN

/-- The only error `dotE` produces is the shape ValueError. -/
theorem dotE_err (a b : Mat) (e : Err) (h : dotE a b = .error e) :
    e = .valueError := by
  unfold dotE at h
  split at h
  · cases h
  · injection h with h2
    exact h2.symm

/-- The only error `bbinE` produces is the shape ValueError. -/
theorem bbinE_err (f : ℝ → ℝ → ℝ) (a b : Mat) (e : Err)
    (h : bbinE f a b = .error e) : e = .valueError := by
  unfold bbinE at h
  split at h
  · cases h
  · injection h with h2
    exact h2.symm

/-- The only error `__linear_forward` produces is the shape ValueError. -/
theorem linear_forward_err (A W b : Mat) (e : Err)
    (h : linear_forward A W b = .error e) : e = .valueError := by
  unfold linear_forward at h
  cases hdot : dotE W A with
  | error e2 =>
    rw [hdot] at h
    simp only [bindE_error] at h
    injection h with h2
    rw [← h2]
    exact dotE_err W A e2 hdot
  | ok Z0 =>
    rw [hdot] at h
    simp only [bindE_ok] at h
    cases hadd : badd Z0 b with
    | error e2 =>
      rw [hadd] at h
      simp only [bindE_error] at h
      injection h with h2
      rw [← h2]
      exact bbinE_err _ Z0 b e2 hadd
    | ok Z =>
      rw [hadd] at h
      simp only [bindE_ok] at h
      cases h

/-- A bound cannot produce a designated error when neither side can. -/
theorem bind_ne_error {α β : Type} (m : Except Err α) (g : α → Except Err β)
    (e0 : Err) (hm : ∀ e, m = .error e → e ≠ e0)
    (hg : ∀ a, g a ≠ .error e0) :
    (m >>= g) ≠ .error e0 := by
  cases m with
  | error e =>
    simp only [bindE_error]
    intro hcon
    injection hcon with h2
    exact hm e rfl h2
  | ok a =>
    simp only [bindE_ok]
    exact hg a

/-- One forward-loop iteration cannot raise the activation IndexError when
the selector index for its layer is present. -/
theorem forwardStep_ne_act_error (s : NNState) (A : Option Mat) (i : ℕ)
    (h : (pyGet? s.activations ((i : ℤ) - 1)).isSome) :
    forwardStep s A i ≠ .error .indexErrorActivations := by
  unfold forwardStep
  split
  · intro hcon; cases hcon
  · split
    · intro hcon; cases hcon
    · split
      · intro hcon; cases hcon
      · split
        · split
          · intro hcon; cases hcon
          · apply bind_ne_error
            · intro e he hcon
              subst hcon
              have := linear_forward_err _ _ _ _ he
              cases this
            · intro zl
              apply bind_ne_error
              · intro e he hcon
                subst hcon
                exact activate_ne_act_error s (some zl.1) i h he
              · intro ac hcon
                cases hcon
        · split
          · intro hcon; cases hcon
          · apply bind_ne_error
            · intro e he hcon
              subst hcon
              exact activate_ne_act_error s none i h he
            · intro ac hcon
              cases hcon

end NN

namespace NN

/-- `pyGet?` on the empty list is always absent. -/
theorem pyGet_nil {α : Type} (i : ℤ) : pyGet? ([] : List α) i = none := by
  unfold pyGet?
  split
  · rfl
  · split <;> rfl

/-- The forward loop starting at layer `i` with `fuel` iterations left never
raises the activation IndexError and appends at most `fuel` cache records,
provided the iterated layers have selector entries. -/
theorem forwardLoop_spec (s : NNState) :
    ∀ (fuel : ℕ) (A : Option Mat) (i : ℕ), 1 ≤ i →
    i + fuel ≤ s.activations.length + 1 →
    (forwardLoop s A i fuel).2 ≠ .error .indexErrorActivations ∧
    (forwardLoop s A i fuel).1.length ≤ fuel := by
  intro fuel
  induction fuel with
  | zero =>
    intro A i h1 h2
    exact ⟨(fun hcon => nomatch hcon), le_refl 0⟩
  | succ fuel ih =>
    intro A i h1 h2
    have hidx : (pyGet? s.activations ((i : ℤ) - 1)).isSome := by
      obtain ⟨m, rfl⟩ : ∃ m, i = m + 1 := ⟨i - 1, by omega⟩
      have hcast : (((m + 1 : ℕ)) : ℤ) = ((m : ℤ) + 1) := by push_cast; ring
      rw [hcast]
      exact pyGet_isSome_of_lt _ m (by omega)
    unfold forwardLoop
    cases hstep : forwardStep s A i with
    | error e =>
      refine ⟨?_, by simp⟩
      intro hcon
      injection hcon with h2
      subst h2
      exact forwardStep_ne_act_error s A i hidx hstep
    | ok pr =>
      obtain ⟨rec, A1⟩ := pr
      obtain ⟨hne, hlen⟩ := ih A1 (i + 1) (by omega) (by omega)
      refine ⟨hne, ?_⟩
      simp only [List.length_cons]
      omega

/-- `forwardCore` never raises the activation IndexError, and produces at
most one cache record per layer, for any state whose selector list covers the
layers and whose parameter count is even (as the constructor guarantees). -/
theorem forwardCore_spec (s : NNState) (x : Mat)
    (hA : s.parameters.length / 2 ≤ s.activations.length)
    (heven : s.parameters.length % 2 = 0) :
    (forwardCore s x).2 ≠ .error .indexErrorActivations ∧
    (forwardCore s x).1.length ≤ s.parameters.length / 2 := by
  obtain ⟨hloopne, hlooplen⟩ := forwardLoop_spec s (s.parameters.length / 2 - 1)
    (some x) 1 (le_refl 1) (by omega)
  rcases hres : forwardLoop s (some x) 1 (s.parameters.length / 2 - 1) with ⟨c, r⟩
  rw [hres] at hloopne hlooplen
  have hne2 : r ≠ .error .indexErrorActivations := hloopne
  have hc : c.length ≤ s.parameters.length / 2 - 1 := hlooplen
  cases r with
  | error e =>
    simp only [forwardCore, hres]
    exact ⟨hne2, by omega⟩
  | ok A =>
    cases hW : dictGet s.parameters (true, s.parameters.length / 2) with
    | none =>
      simp only [forwardCore, hres, hW]
      exact ⟨(fun hcon => nomatch hcon), by omega⟩
    | some W =>
      have hlen1 : 0 < s.parameters.length := by
        by_contra hz
        have hnil : s.parameters = [] := List.length_eq_zero.mp (by omega)
        rw [hnil] at hW
        cases hW
      have hL1 : 1 ≤ s.parameters.length / 2 := by omega
      cases hb : dictGet s.parameters (false, s.parameters.length / 2) with
      | none =>
        simp only [forwardCore, hres, hW, hb]
        exact ⟨(fun hcon => nomatch hcon), by omega⟩
      | some b =>
        cases A with
        | none =>
          simp only [forwardCore, hres, hW, hb]
          exact ⟨(fun hcon => nomatch hcon), by omega⟩
        | some Aprev =>
          cases hlf : linear_forward Aprev W b with
          | error e =>
            simp only [forwardCore, hres, hW, hb, hlf]
            refine ⟨?_, by omega⟩
            intro hcon
            injection hcon with h2
            subst h2
            have := linear_forward_err _ _ _ _ hlf
            cases this
          | ok zl =>
            by_cases hcond : 2 * s.activations.length = s.parameters.length
            · have hact1 : 0 < s.activations.length := by omega
              have hidx : (pyGet? s.activations
                  ((s.activations.length : ℤ) - 1)).isSome := by
                obtain ⟨m, hm⟩ : ∃ m, s.activations.length = m + 1 :=
                  ⟨s.activations.length - 1, by omega⟩
                rw [hm]
                have hcast : (((m + 1 : ℕ)) : ℤ) = ((m : ℤ) + 1) := by
                  push_cast; ring
                rw [hcast]
                exact pyGet_isSome_of_lt _ m (by omega)
              cases hac : activate s (some zl.1) s.activations.length with
              | error e =>
                simp only [forwardCore, hres, hW, hb, hlf, if_pos hcond, hac]
                refine ⟨?_, by omega⟩
                intro hcon
                injection hcon with h2
                subst h2
                exact activate_ne_act_error s (some zl.1)
                  s.activations.length hidx hac
              | ok ac =>
                simp only [forwardCore, hres, hW, hb, hlf, if_pos hcond, hac]
                refine ⟨(fun hcon => nomatch hcon), ?_⟩
                rw [List.length_append]
                simp only [List.length_cons, List.length_nil]
                omega
            · simp only [forwardCore, hres, hW, hb, hlf, if_neg hcond]
              refine ⟨(fun hcon => nomatch hcon), ?_⟩
              rw [List.length_append]
              simp only [List.length_cons, List.length_nil]
              omega

end NN

namespace NN

/-- `__linear_backward` cannot raise the activation IndexError when the layer
index is bounded by the selector-list length (and, at index 0, the cache is
empty or the selector list is non-empty). -/
theorem linear_backward_ne_act (s : NNState) (dA : Mat) (n : ℕ)
    (hn : n ≤ s.activations.length)
    (h0 : n = 0 → s.cache.length = 0 ∨ 0 < s.activations.length) :
    linear_backward s dA n ≠ .error .indexErrorActivations := by
  cases hrec : pyGet? s.cache ((n : ℤ) - 1) with
  | none =>
    simp only [linear_backward, hrec]
    intro hcon; cases hcon
  | some rec =>
    have hact : n = 0 → 0 < s.activations.length := by
      intro hzero
      rcases h0 hzero with hcl | hpos
      · exfalso
        have hnil : s.cache = [] := List.length_eq_zero.mp hcl
        rw [hnil, pyGet_nil] at hrec
        cases hrec
      · exact hpos
    cases hlin : rec.lin with
    | none =>
      simp only [linear_backward, hrec, hlin]
      intro hcon; cases hcon
    | some lc =>
      cases hde : deactivate s dA n with
      | error e =>
        simp only [linear_backward, hrec, hlin, hde]
        intro hcon
        injection hcon with h2
        subst h2
        exact deactivate_ne_act_error s dA n hn hact hde
      | ok de =>
        cases hdz : applyDeact dA de with
        | error e =>
          simp only [linear_backward, hrec, hlin, hde, hdz]
          intro hcon
          injection hcon with h2
          subst h2
          cases de with
          | one => cases hdz
          | noneD =>
            injection hdz with h3
            cases h3
          | mat M =>
            have := bbinE_err _ _ _ _ hdz
            cases this
        | ok dZ =>
          cases hdot : dotE dZ (transpose lc.1) with
          | error e =>
            simp only [linear_backward, hrec, hlin, hde, hdz, hdot]
            intro hcon
            injection hcon with h2
            subst h2
            have := dotE_err _ _ _ hdot
            cases this
          | ok dW0 =>
            cases hWn : dictGet s.parameters (true, n) with
            | none =>
              simp only [linear_backward, hrec, hlin, hde, hdz, hdot, hWn]
              intro hcon; cases hcon
            | some Wn =>
              cases hbadd : badd (smul (1 / (dA.cols : ℝ)) dW0)
                  (smul (s.lamb / (dA.cols : ℝ)) Wn) with
              | error e =>
                simp only [linear_backward, hrec, hlin, hde, hdz, hdot, hWn, hbadd]
                intro hcon
                injection hcon with h2
                subst h2
                have := bbinE_err _ _ _ _ hbadd
                cases this
              | ok dW =>
                cases hdot2 : dotE (transpose lc.2.1) dZ with
                | error e =>
                  simp only [linear_backward, hrec, hlin, hde, hdz, hdot, hWn,
                    hbadd, hdot2]
                  intro hcon
                  injection hcon with h2
                  subst h2
                  have := dotE_err _ _ _ hdot2
                  cases this
                | ok dAprev =>
                  simp only [linear_backward, hrec, hlin, hde, hdz, hdot, hWn,
                    hbadd, hdot2]
                  split
                  · split
                    · split
                      · intro hcon; cases hcon
                      · intro hcon; cases hcon
                    · intro hcon; cases hcon
                  · intro hcon; cases hcon

/-- The reverse loop cannot raise the activation IndexError while the number
of remaining iterations is bounded by the selector-list length. -/
theorem backwardLoop_ne_act :
    ∀ (fuel : ℕ) (s : NNState), fuel ≤ s.activations.length →
    (backwardLoop s fuel).2 ≠ .error .indexErrorActivations := by
  intro fuel
  induction fuel with
  | zero =>
    intro s h hcon
    cases hcon
  | succ fuel ih =>
    intro s h
    cases hlt : pyGet? s.layer_type (fuel : ℤ) with
    | none =>
      simp only [backwardLoop, hlt]
      intro hcon; cases hcon
    | some lt =>
      by_cases hfc : lt = "fc"
      · subst hfc
        simp only [backwardLoop, hlt, if_pos]
        cases hg : dictGet s.grads (GKind.dA, fuel + 1) with
        | none =>
          simp only [hg]
          intro hcon; cases hcon
        | some og =>
          cases og with
          | none =>
            simp only [hg]
            intro hcon; cases hcon
          | some dAl =>
            simp only [hg]
            cases hlb : linear_backward s dAl (fuel + 1) with
            | error e =>
              simp only [hlb]
              intro hcon
              injection hcon with h2
              subst h2
              exact linear_backward_ne_act s dAl (fuel + 1) (by omega)
                (fun hz => (Nat.succ_ne_zero fuel hz).elim) hlb
            | ok g =>
              simp only [hlb]
              exact ih _ (show fuel ≤ s.activations.length by omega)
      · by_cases hcv : lt = "conv"
        · subst hcv
          simp only [backwardLoop, hlt, if_neg hfc, if_pos]
          intro hcon; cases hcon
        · simp only [backwardLoop, hlt, if_neg hfc, if_neg hcv]
          exact ih _ (show fuel ≤ s.activations.length by omega)

/-- The only error `output_backward` produces is the shape ValueError. -/
theorem output_backward_err (s : NNState) (p t : Mat) (e : Err)
    (h : output_backward s p t = .error e) : e = .valueError := by
  unfold output_backward at h
  split at h
  · cases h1 : bdiv t (emap (fun x => x + 1e-10) p) with
    | error e2 =>
      rw [h1] at h
      simp only [bindE_error] at h
      injection h with h2
      rw [← h2]
      exact bbinE_err _ _ _ _ h1
    | ok q1 =>
      rw [h1] at h
      simp only [bindE_ok] at h
      cases h2 : bdiv (emap (fun x => 1 - x) t)
          (emap (fun x => 1 - x + 1e-10) p) with
      | error e2 =>
        rw [h2] at h
        simp only [bindE_error] at h
        injection h with h3
        rw [← h3]
        exact bbinE_err _ _ _ _ h2
      | ok q2 =>
        rw [h2] at h
        simp only [bindE_ok] at h
        cases h3 : bsub q1 q2 with
        | error e2 =>
          rw [h3] at h
          simp only [bindE_error] at h
          injection h with h4
          rw [← h4]
          exact bbinE_err _ _ _ _ h3
        | ok d =>
          rw [h3] at h
          simp only [bindE_ok] at h
          cases h
  · split at h
    · cases h4 : bsub p t with
      | error e2 =>
        rw [h4] at h
        simp only [bindE_error] at h
        injection h with h5
        rw [← h5]
        exact bbinE_err _ _ _ _ h4
      | ok d =>
        rw [h4] at h
        simp only [bindE_ok] at h
        cases h
    · cases h

/-- `backward` cannot raise the activation IndexError when the cache is no
longer than the selector list. -/
theorem backward_ne_act (s : NNState) (p t : Mat)
    (hA : s.cache.length ≤ s.activations.length) :
    (backward s p t).2 ≠ .error .indexErrorActivations := by
  cases hob : output_backward s p t with
  | error e =>
    simp only [backward, hob]
    intro hcon
    injection hcon with h2
    subst h2
    have := output_backward_err s p t _ hob
    cases this
  | ok od =>
    cases od with
    | none =>
      simp only [backward, hob]
      intro hcon; cases hcon
    | some doutput =>
      cases hlb : linear_backward s doutput s.cache.length with
      | error e =>
        simp only [backward, hob, hlb]
        intro hcon
        injection hcon with h2
        subst h2
        exact linear_backward_ne_act s doutput s.cache.length hA
          (fun hz => Or.inl hz) hlb
      | ok g =>
        simp only [backward, hob, hlb]
        intro hcon
        unfold backwardFinish at hcon
        revert hcon
        split
        · intro hcon; cases hcon
        · rename_i s2 e heqLoop
          intro hcon
          injection hcon with h2
          subst h2
          refine backwardLoop_ne_act (s.cache.length - 1) _ ?_ (by rw [heqLoop])
          show s.cache.length - 1 ≤ s.activations.length
          omega

end NN

namespace NN

/-- C7 (amended): after initial construction the activation selector list is
padded to the layer count, and `forward` — as well as a subsequent `backward`
with any stored loss selector — never indexes the activation selector list
out of range.  (The padding is performed only by the constructor; `add_fcn`
does not re-pad, and forward after an `add_fcn` with fewer activation
selectors than new layers does index out of range — see the
counterexample.) -/
theorem C7_activation_padding (dims : List ℕ) (acts : List (Option String))
    (ω : ℕ → ℕ → ℕ → ℝ) (x p t : Mat) (c : String) :
    (forward (init dims acts ω) x).2 ≠ .error .indexErrorActivations ∧
    (backward { (forward (init dims acts ω) x).1 with cost_function := c } p t).2
      ≠ .error .indexErrorActivations := by
  have hA := init_acts_length dims acts ω
  have heven : (init dims acts ω).parameters.length % 2 = 0 := by
    unfold init check_activations init_params
    simp only [List.length_append, List.nil_append]
    rw [flatMap_two_length]
    omega
  obtain ⟨hfne, hflen⟩ := forwardCore_spec (init dims acts ω) x hA heven
  constructor
  · exact hfne
  · apply backward_ne_act
    show (forwardCore (init dims acts ω) x).1.length ≤
      (init dims acts ω).activations.length
    omega

/-- C7 counterexample: growing a one-layer network (one activation selector)
by two more layers through `add_fcn` with an empty activation list leaves the
selector list shorter than the loop needs, and `forward` indexes the
activation selector list out of range (IndexError) at the second layer. -/
theorem C7_counterexample :
    (forward (add_fcn (init [1, 1] [some "relu"] omega0) [1, 1, 1] [] omega0)
      m11).2 = .error .indexErrorActivations := by
  rfl

end NN

namespace NN

/-! Claim C1: structural lemmas about the constructed store. -/

/-- For `n ≥ 1`, the Python index `n-1` reads position `n-1` of the list. -/
theorem pyGet_succ_sub {α : Type} (l : List α) (n : ℕ) (h1 : 1 ≤ n) :
    pyGet? l ((n : ℤ) - 1) = l.get? (n - 1) := by
  obtain ⟨m, rfl⟩ : ∃ m, n = m + 1 := ⟨n - 1, by omega⟩
  have hcast : (((m + 1 : ℕ) : ℤ) - 1) = ((m : ℕ) : ℤ) := by push_cast; ring
  rw [hcast]
  unfold pyGet?
  rw [if_pos (by positivity)]
  simp

/-- Broadcasting an axis against a length-1 axis keeps it. -/
theorem bcastLen_one_right (a : ℕ) : bcastLen a 1 = a := by
  unfold bcastLen
  split <;> omega

/-- `dictGet` after erasing a different key is unchanged. -/
theorem dictGet_eraseP_ne {κ α : Type} [DecidableEq κ] (k k2 : κ) (h : k2 ≠ k) :
    ∀ l : List (κ × α),
    dictGet (l.eraseP (fun p => p.1 == k)) k2 = dictGet l k2 := by
  intro l
  induction l with
  | nil => rfl
  | cons a rest ih =>
    rw [List.eraseP_cons]
    by_cases ha : a.1 = k
    · have hb : (a.1 == k) = true := beq_iff_eq.mpr ha
      rw [hb]
      simp only [cond_true]
      show dictGet rest k2 = dictGet (a :: rest) k2
      rcases a with ⟨ak, av⟩
      show dictGet rest k2 = if k2 = ak then some av else dictGet rest k2
      rw [if_neg (by simp only at ha; rw [ha]; exact h)]
    · have hb : (a.1 == k) = false := by
        rw [beq_eq_false_iff_ne]
        exact ha
      rw [hb]
      simp only [cond_false]
      rcases a with ⟨ak, av⟩
      show (if k2 = ak then some av else _) = if k2 = ak then some av else _
      split
      · rfl
      · exact ih

/-- Lookup after a dict assignment: the written key reads the new value,
other keys are unchanged. -/
theorem dictGet_dictSet {κ α : Type} [DecidableEq κ] (l : List (κ × α))
    (k k2 : κ) (v : α) :
    dictGet (dictSet l k v) k2 = if k2 = k then some v else dictGet l k2 := by
  unfold dictSet
  show (if k2 = k then some v else _) = _
  by_cases h : k2 = k
  · rw [if_pos h, if_pos h]
  · rw [if_neg h, if_neg h]
    exact dictGet_eraseP_ne k k2 h l

/-- The parameter list built by the constructor. -/
theorem init_parameters_eq (dims : List ℕ) (acts : List (Option String))
    (ω : ℕ → ℕ → ℕ → ℝ) :
    (init dims acts ω).parameters =
      (List.range' 1 (dims.length - 1)).flatMap
        (fun i => [((true, 0 + i), Wdraw dims ω i), ((false, i + 0), bZeros dims i)]) := by
  unfold init check_activations init_params
  simp

/-- Looking up a weight key in the constructed parameter list. -/
theorem lookup_flatMap_W (dims : List ℕ) (ω : ℕ → ℕ → ℕ → ℝ) :
    ∀ (len st k : ℕ), st ≤ k → k < st + len →
    dictGet ((List.range' st len).flatMap
      (fun i => [((true, 0 + i), Wdraw dims ω i), ((false, i + 0), bZeros dims i)]))
      (true, k) = some (Wdraw dims ω k) := by
  intro len
  induction len with
  | zero =>
    intro st k h1 h2
    omega
  | succ len ih =>
    intro st k h1 h2
    rw [List.range'_succ, List.flatMap_cons]
    simp only [List.cons_append, List.nil_append]
    by_cases hk : k = st
    · subst hk
      show (if ((true, k) : Bool × ℕ) = (true, 0 + k) then _ else _) = _
      rw [if_pos (by simp)]
    · show (if ((true, k) : Bool × ℕ) = (true, 0 + st) then _ else _) = _
      rw [if_neg (by simp [hk])]
      show (if ((true, k) : Bool × ℕ) = (false, st + 0) then _ else _) = _
      rw [if_neg (by simp)]
      exact ih (st + 1) k (by omega) (by omega)

/-- Looking up a bias key in the constructed parameter list. -/
theorem lookup_flatMap_b (dims : List ℕ) (ω : ℕ → ℕ → ℕ → ℝ) :
    ∀ (len st k : ℕ), st ≤ k → k < st + len →
    dictGet ((List.range' st len).flatMap
      (fun i => [((true, 0 + i), Wdraw dims ω i), ((false, i + 0), bZeros dims i)]))
      (false, k) = some (bZeros dims k) := by
  intro len
  induction len with
  | zero =>
    intro st k h1 h2
    omega
  | succ len ih =>
    intro st k h1 h2
    rw [List.range'_succ, List.flatMap_cons]
    simp only [List.cons_append, List.nil_append]
    show (if ((false, k) : Bool × ℕ) = (true, 0 + st) then _ else _) = _
    rw [if_neg (by simp)]
    by_cases hk : k = st
    · subst hk
      show (if ((false, k) : Bool × ℕ) = (false, k + 0) then _ else _) = _
      rw [if_pos (by simp)]
    · show (if ((false, k) : Bool × ℕ) = (false, st + 0) then _ else _) = _
      rw [if_neg (by simp [hk])]
      exact ih (st + 1) k (by omega) (by omega)

/-- Weight lookup on the constructed store. -/
theorem init_lookup_W (dims : List ℕ) (acts : List (Option String))
    (ω : ℕ → ℕ → ℕ → ℝ) (k : ℕ) (h1 : 1 ≤ k) (h2 : k ≤ dims.length - 1) :
    dictGet (init dims acts ω).parameters (true, k) = some (Wdraw dims ω k) := by
  rw [init_parameters_eq]
  exact lookup_flatMap_W dims ω (dims.length - 1) 1 k h1 (by omega)

/-- Bias lookup on the constructed store. -/
theorem init_lookup_b (dims : List ℕ) (acts : List (Option String))
    (ω : ℕ → ℕ → ℕ → ℝ) (k : ℕ) (h1 : 1 ≤ k) (h2 : k ≤ dims.length - 1) :
    dictGet (init dims acts ω).parameters (false, k) = some (bZeros dims k) := by
  rw [init_parameters_eq]
  exact lookup_flatMap_b dims ω (dims.length - 1) 1 k h1 (by omega)

/-- Length of the constructed parameter list. -/
theorem init_params_length (dims : List ℕ) (acts : List (Option String))
    (ω : ℕ → ℕ → ℕ → ℝ) :
    (init dims acts ω).parameters.length = 2 * (dims.length - 1) := by
  rw [init_parameters_eq, flatMap_two_length]
  simp

end NN

namespace NN

/-- Shapes of the constructed weight draw. -/
theorem Wdraw_shape (dims : List ℕ) (ω : ℕ → ℕ → ℕ → ℝ) (k : ℕ) :
    (Wdraw dims ω k).rows = dims.getD k 0 ∧
    (Wdraw dims ω k).cols = dims.getD (k - 1) 0 := ⟨rfl, rfl⟩

/-- Shapes of the constructed zero bias. -/
theorem bZeros_shape (dims : List ℕ) (k : ℕ) :
    (bZeros dims k).rows = dims.getD k 0 ∧ (bZeros dims k).cols = 1 := ⟨rfl, rfl⟩

/-- The constructed activation list: the given selectors padded with `None`
to the layer count. -/
theorem init_activations (dims : List ℕ) (acts : List (Option String))
    (ω : ℕ → ℕ → ℕ → ℝ) :
    (init dims acts ω).activations =
      acts ++ List.replicate
        (2 * (dims.length - 1) / 2 - acts.length) (none : Option String) := by
  unfold init check_activations init_params
  simp only [List.nil_append]
  rw [flatMap_two_length]
  simp

/-- Length of the constructed activation list when no more selectors than
layers were passed. -/
theorem init_activations_length (dims : List ℕ) (acts : List (Option String))
    (ω : ℕ → ℕ → ℕ → ℝ) (h : acts.length ≤ dims.length - 1) :
    (init dims acts ω).activations.length = dims.length - 1 := by
  rw [init_activations]
  simp only [List.length_append, List.length_replicate]
  omega

/-- The selector the constructed store yields for layer `n` is present and
valid when the given selectors are valid. -/
theorem init_act_get (dims : List ℕ) (acts : List (Option String))
    (ω : ℕ → ℕ → ℕ → ℝ) (hlen : acts.length ≤ dims.length - 1)
    (hv : ∀ a ∈ acts, ValidSel a) (n : ℕ) (h1 : 1 ≤ n)
    (h2 : n ≤ dims.length - 1) :
    ∃ sel, pyGet? (init dims acts ω).activations ((n : ℤ) - 1) = some sel ∧
      ValidSel sel := by
  rw [pyGet_succ_sub _ n h1, init_activations]
  by_cases hn : n - 1 < acts.length
  · have hget : (acts ++ List.replicate (2 * (dims.length - 1) / 2 - acts.length)
        (none : Option String)).get? (n - 1) = acts.get? (n - 1) := by
      rw [List.get?_append hn]
    rw [hget]
    rcases hsome : acts.get? (n - 1) with _ | sel
    · rw [List.get?_eq_none] at hsome
      omega
    · exact ⟨sel, rfl, hv sel (List.get?_mem hsome)⟩
  · refine ⟨none, ?_, trivial⟩
    rw [List.get?_append_right (by omega)]
    rw [List.get?_eq_get (by simp; omega)]
    simp [List.get_replicate]

/-- The constructed layer-kind list. -/
theorem init_layer_type (dims : List ℕ) (acts : List (Option String))
    (ω : ℕ → ℕ → ℕ → ℝ) :
    (init dims acts ω).layer_type =
      [""] ++ List.replicate (dims.length - 1) "fc" := rfl

/-- Indexing the constructed layer-kind list at a layer gives `"fc"`. -/
theorem pyGet_layer_type_fc (L i : ℕ) (h1 : 1 ≤ i) (h2 : i ≤ L) :
    pyGet? ([""] ++ List.replicate L "fc") (i : ℤ) = some "fc" := by
  unfold pyGet?
  rw [if_pos (by positivity)]
  simp only [Int.toNat_natCast]
  obtain ⟨m, rfl⟩ : ∃ m, i = m + 1 := ⟨i - 1, by omega⟩
  show (("" :: List.replicate L "fc").get? (m + 1)) = some "fc"
  rw [List.get?_cons_succ]
  rw [List.get?_eq_get (by simp; omega)]
  simp [List.get_replicate]

/-- Indexing a replicated `"fc"` list. -/
theorem pyGet_replicate_fc (L l : ℕ) (h : l < L) :
    pyGet? (List.replicate L "fc") (l : ℤ) = some "fc" := by
  unfold pyGet?
  rw [if_pos (by positivity)]
  simp only [Int.toNat_natCast]
  rw [List.get?_eq_get (by simp; omega)]
  simp [List.get_replicate]

end NN

namespace NN

/-- Shape preservation of `__activate` under a valid selector: the activated
value exists and has the shape of `Z`, and the cached value is `Z`. -/
theorem activate_spec (s : NNState) (Z : Mat) (n : ℕ) (sel : Option String)
    (hget : pyGet? s.activations ((n : ℤ) - 1) = some sel)
    (hval : ValidSel sel) :
    ∃ A, activate s (some Z) n = .ok (some A, some Z) ∧
      A.rows = Z.rows ∧ A.cols = Z.cols := by
  cases sel with
  | none =>
    simp only [activate, hget]
    exact ⟨Z, rfl, rfl, rfl⟩
  | some name =>
    rcases hval with h | h | h | h
    · simp only [activate, hget, h]
      exact ⟨reluM Z, rfl, rfl, rfl⟩
    · simp only [activate, hget, h]
      exact ⟨tanhM Z, rfl, rfl, rfl⟩
    · simp only [activate, hget, h]
      exact ⟨sigmoidM Z, rfl, rfl, rfl⟩
    · simp only [activate, hget, h]
      exact ⟨softmaxM Z, rfl, rfl, rfl⟩

/-- Broadcast addition of a column vector onto a matrix. -/
theorem badd_spec (u b : Mat) (h1 : b.rows = u.rows) (h2 : b.cols = 1) :
    ∃ v, badd u b = .ok v ∧ v.rows = u.rows ∧ v.cols = u.cols := by
  refine ⟨_, bbinE_ok (fun x y => x + y) u b (Or.inl h1.symm)
    (Or.inr (Or.inr h2)), ?_, ?_⟩
  · show bcastLen u.rows b.rows = u.rows
    rw [h1, bcastLen_self]
  · show bcastLen u.cols b.cols = u.cols
    rw [h2, bcastLen_one_right]

/-- Broadcast binary operation on two equal-shaped matrices. -/
theorem bbinE_spec_eq (f : ℝ → ℝ → ℝ) (a b : Mat)
    (h1 : b.rows = a.rows) (h2 : b.cols = a.cols) :
    ∃ v, bbinE f a b = .ok v ∧ v.rows = a.rows ∧ v.cols = a.cols := by
  refine ⟨_, bbinE_ok f a b (Or.inl h1.symm) (Or.inl h2.symm), ?_, ?_⟩
  · show bcastLen a.rows b.rows = a.rows
    rw [h1, bcastLen_self]
  · show bcastLen a.cols b.cols = a.cols
    rw [h2, bcastLen_self]

/-- Shape behaviour of `__linear_forward` on chain-consistent inputs. -/
theorem linear_forward_spec (A W b : Mat) (hWA : W.cols = A.rows)
    (hbr : b.rows = W.rows) (hbc : b.cols = 1) :
    ∃ Z, linear_forward A W b = .ok (Z, (A, W, b)) ∧
      Z.rows = W.rows ∧ Z.cols = A.cols := by
  unfold linear_forward
  rw [dotE_ok W A hWA]
  simp only [bindE_ok]
  obtain ⟨v, hv, hvr, hvc⟩ := badd_spec
    (⟨W.rows, A.cols,
      fun i j => ∑ k in Finset.range W.cols, W.entry i k * A.entry k j⟩ : Mat)
    b hbr hbc
  rw [hv]
  simp only [bindE_ok]
  exact ⟨v, rfl, hvr, hvc⟩

/-- Shape behaviour of one forward-loop iteration on a fully-connected layer
with a valid selector: the produced cache record stores the linear triple and
the pre-activation, and the activated output keeps the layer shape. -/
theorem forwardStep_spec (s : NNState) (A : Mat) (i : ℕ) (W b : Mat)
    (sel : Option String)
    (hW : dictGet s.parameters (true, i) = some W)
    (hb : dictGet s.parameters (false, i) = some b)
    (hlt : pyGet? s.layer_type (i : ℤ) = some "fc")
    (hsel : pyGet? s.activations ((i : ℤ) - 1) = some sel)
    (hvsel : ValidSel sel)
    (hWA : W.cols = A.rows) (hbr : b.rows = W.rows) (hbc : b.cols = 1) :
    ∃ Z A1, forwardStep s (some A) i = .ok (⟨some (A, W, b), some Z⟩, some A1) ∧
      Z.rows = W.rows ∧ Z.cols = A.cols ∧ A1.rows = W.rows ∧ A1.cols = A.cols := by
  simp only [forwardStep, hW, hb, hlt, if_true]
  obtain ⟨Z, hZ, hZr, hZc⟩ := linear_forward_spec A W b hWA hbr hbc
  rw [hZ]
  simp only [bindE_ok]
  obtain ⟨A1, hA1, hA1r, hA1c⟩ := activate_spec s Z i sel hsel hvsel
  rw [hA1]
  simp only [bindE_ok]
  exact ⟨Z, A1, rfl, hZr, hZc, hA1r.trans hZr, hA1c.trans hZc⟩

end NN

namespace NN

/-- `__deactivate` followed by the `dA * …` product succeeds under a valid
selector and a cached pre-activation of the shape of `dA`, and preserves the
shape of `dA`. -/
theorem deact_apply_full (s : NNState) (dA : Mat) (n : ℕ) (Ap W b Z : Mat)
    (sel : Option String)
    (hr : pyGet? s.cache ((n : ℤ) - 1) = some ⟨some (Ap, W, b), some Z⟩)
    (hsel : pyGet? s.activations ((n : ℤ) - 1) = some sel)
    (hv : ValidSel sel)
    (hZr : Z.rows = dA.rows) (hZc : Z.cols = dA.cols) :
    ∃ de dZ, deactivate s dA n = .ok de ∧ applyDeact dA de = .ok dZ ∧
      dZ.rows = dA.rows ∧ dZ.cols = dA.cols := by
  cases sel with
  | none =>
    refine ⟨.one, dA, ?_, rfl, rfl, rfl⟩
    simp only [deactivate, hr, hsel]
  | some name =>
    rcases hv with h | h | h | h
    · obtain ⟨v, hv2, hvr, hvc⟩ := bbinE_spec_eq (fun x y => x * y) dA
        (emap (fun z => if 0 < z then (1 : ℝ) else 0) Z) hZr hZc
      refine ⟨.mat _, v, ?_, hv2, hvr, hvc⟩
      simp only [deactivate, hr, hsel, h]
      rfl
    · obtain ⟨v, hv2, hvr, hvc⟩ := bbinE_spec_eq (fun x y => x * y) dA
        (emap (fun x => 1 - x ^ 2) dA) rfl rfl
      refine ⟨.mat _, v, ?_, hv2, hvr, hvc⟩
      simp only [deactivate, hr, hsel, h]
      rfl
    · obtain ⟨v, hv2, hvr, hvc⟩ := bbinE_spec_eq (fun x y => x * y) dA
        (emap (fun z =>
          (1 / (1 + Real.exp (-z + 1e-10))) *
            (1 - 1 / (1 + Real.exp (-z + 1e-10)))) Z) hZr hZc
      refine ⟨.mat _, v, ?_, hv2, hvr, hvc⟩
      simp only [deactivate, hr, hsel, h]
      rfl
    · obtain ⟨v, hv2, hvr, hvc⟩ := bbinE_spec_eq (fun x y => x * y) dA
        (emap (fun z =>
          (1 / (1 + Real.exp (-z + 1e-10))) *
            (1 - 1 / (1 + Real.exp (-z + 1e-10)))) Z) hZr hZc
      refine ⟨.mat _, v, ?_, hv2, hvr, hvc⟩
      simp only [deactivate, hr, hsel, h]
      rfl

/-- `output_backward` succeeds on a stored loss selector and equal-shaped
prediction and target, and the output gradient keeps their shape. -/
theorem output_backward_full (s : NNState) (p t : Mat)
    (hc : pyLower s.cost_function = "mseloss" ∨
          pyLower s.cost_function = "crossentropyloss")
    (hr : p.rows = t.rows) (hcol : p.cols = t.cols) :
    ∃ d, output_backward s p t = .ok (some d) ∧
      d.rows = p.rows ∧ d.cols = p.cols := by
  rcases hc with h | h
  · obtain ⟨v, hv2, hvr, hvc⟩ := bbinE_spec_eq (fun x y => x - y) p t
      hr.symm hcol.symm
    refine ⟨v, ?_, hvr, hvc⟩
    unfold output_backward
    rw [h, if_neg (by decide), if_pos rfl]
    show (bsub p t).bind _ = _
    rw [show bsub p t = bbinE (fun x y => x - y) p t from rfl, hv2]
    rfl
  · obtain ⟨q1, hq1, hq1r, hq1c⟩ := bbinE_spec_eq (fun x y => x / y) t
      (emap (fun x => x + 1e-10) p) hr hcol
    obtain ⟨q2, hq2, hq2r, hq2c⟩ := bbinE_spec_eq (fun x y => x / y)
      (emap (fun x => 1 - x) t) (emap (fun x => 1 - x + 1e-10) p)
      (hr : p.rows = t.rows) (hcol : p.cols = t.cols)
    obtain ⟨d, hd, hdr, hdc⟩ := bbinE_spec_eq (fun x y => x - y) q1 q2
      (by rw [hq2r, hq1r]; exact rfl) (by rw [hq2c, hq1c]; exact rfl)
    refine ⟨smul (-1) d, ?_, ?_, ?_⟩
    · unfold output_backward
      rw [h, if_pos rfl]
      show (bdiv t (emap (fun x => x + 1e-10) p)).bind _ = _
      rw [show bdiv t (emap (fun x => x + 1e-10) p) =
        bbinE (fun x y => x / y) t (emap (fun x => x + 1e-10) p) from rfl, hq1]
      show (bdiv (emap (fun x => 1 - x) t) (emap (fun x => 1 - x + 1e-10) p)).bind _ = _
      rw [show bdiv (emap (fun x => 1 - x) t) (emap (fun x => 1 - x + 1e-10) p) =
        bbinE (fun x y => x / y) (emap (fun x => 1 - x) t)
          (emap (fun x => 1 - x + 1e-10) p) from rfl, hq2]
      show (bsub q1 q2).bind _ = _
      rw [show bsub q1 q2 = bbinE (fun x y => x - y) q1 q2 from rfl, hd]
      rfl
    · show d.rows = p.rows
      rw [hdr, hq1r, hr]
    · show d.cols = p.cols
      rw [hdc, hq1c, hcol]

end NN

namespace NN

/-- `__linear_backward` on a chain-consistent cached layer: it succeeds (in
particular all three shape asserts pass) and the gradients have the parameter
shapes, with `dA_prev` shaped like the layer input. -/
theorem linear_backward_full (dims : List ℕ) (ω : ℕ → ℕ → ℕ → ℝ) (s : NNState)
    (batch n : ℕ) (dA Ap Z : Mat) (sel : Option String)
    (hcache : pyGet? s.cache ((n : ℤ) - 1) =
      some ⟨some (Ap, Wdraw dims ω n, bZeros dims n), some Z⟩)
    (hsel : pyGet? s.activations ((n : ℤ) - 1) = some sel)
    (hv : ValidSel sel)
    (hW : dictGet s.parameters (true, n) = some (Wdraw dims ω n))
    (hApr : Ap.rows = dims.getD (n - 1) 0) (hApc : Ap.cols = batch)
    (hZr : Z.rows = dims.getD n 0) (hZc : Z.cols = batch)
    (hdAr : dA.rows = dims.getD n 0) (hdAc : dA.cols = batch) :
    ∃ gW gb gA, linear_backward s dA n = .ok (gW, gb, gA) ∧
      gW.rows = dims.getD n 0 ∧ gW.cols = dims.getD (n - 1) 0 ∧
      gb.rows = dims.getD n 0 ∧ gb.cols = 1 ∧
      gA.rows = dims.getD (n - 1) 0 ∧ gA.cols = batch := by
  obtain ⟨de, dZ, hde, hdz, hdzr, hdzc⟩ :=
    deact_apply_full s dA n Ap (Wdraw dims ω n) (bZeros dims n) Z sel
      hcache hsel hv (by rw [hZr, hdAr]) (by rw [hZc, hdAc])
  obtain ⟨M1, hM1, hM1r, hM1c⟩ :
      ∃ M1, dotE dZ (transpose Ap) = .ok M1 ∧
        M1.rows = dZ.rows ∧ M1.cols = Ap.rows :=
    ⟨_, dotE_ok dZ (transpose Ap)
      (by show dZ.cols = Ap.cols; rw [hdzc, hdAc, hApc]), rfl, rfl⟩
  obtain ⟨vW, hvW2, hvWr, hvWc⟩ := bbinE_spec_eq (fun x y => x + y)
    (smul (1 / (dA.cols : ℝ)) M1) (smul (s.lamb / (dA.cols : ℝ)) (Wdraw dims ω n))
    (by show dims.getD n 0 = M1.rows; rw [hM1r, hdzr, hdAr])
    (by show dims.getD (n - 1) 0 = M1.cols; rw [hM1c, hApr])
  have hsum : badd (smul (1 / (dA.cols : ℝ)) M1)
      (smul (s.lamb / (dA.cols : ℝ)) (Wdraw dims ω n)) = .ok vW := hvW2
  obtain ⟨M2, hM2, hM2r, hM2c⟩ :
      ∃ M2, dotE (transpose (Wdraw dims ω n)) dZ = .ok M2 ∧
        M2.rows = dims.getD (n - 1) 0 ∧ M2.cols = dZ.cols :=
    ⟨_, dotE_ok (transpose (Wdraw dims ω n)) dZ
      (by show dims.getD n 0 = dZ.rows; rw [hdzr, hdAr]), rfl, rfl⟩
  refine ⟨vW, smul (1 / (dA.cols : ℝ)) (sumAxis1 dZ), M2, ?_, ?_, ?_, ?_, ?_, ?_, ?_⟩
  · simp only [linear_backward, hcache, hde, hdz, hM1, hW, hsum, hM2]
    rw [if_pos (⟨by rw [hM2r, hApr], by rw [hM2c, hdzc, hdAc, hApc]⟩ :
          M2.rows = Ap.rows ∧ M2.cols = Ap.cols),
        if_pos (⟨by show vW.rows = dims.getD n 0
                    rw [hvWr]
                    show M1.rows = dims.getD n 0
                    rw [hM1r, hdzr, hdAr],
                 by show vW.cols = dims.getD (n - 1) 0
                    rw [hvWc]
                    show M1.cols = dims.getD (n - 1) 0
                    rw [hM1c, hApr]⟩ :
          vW.rows = (Wdraw dims ω n).rows ∧ vW.cols = (Wdraw dims ω n).cols),
        if_pos (⟨by show dZ.rows = dims.getD n 0
                    rw [hdzr, hdAr],
                 rfl⟩ :
          (smul (1 / (dA.cols : ℝ)) (sumAxis1 dZ)).rows = (bZeros dims n).rows ∧
          (smul (1 / (dA.cols : ℝ)) (sumAxis1 dZ)).cols = (bZeros dims n).cols)]
  · show vW.rows = dims.getD n 0
    rw [hvWr]
    show M1.rows = dims.getD n 0
    rw [hM1r, hdzr, hdAr]
  · show vW.cols = dims.getD (n - 1) 0
    rw [hvWc]
    show M1.cols = dims.getD (n - 1) 0
    rw [hM1c, hApr]
  · show dZ.rows = dims.getD n 0
    rw [hdzr, hdAr]
  · rfl
  · rw [hM2r]
  · show M2.cols = batch
    rw [hM2c, hdzc, hdAc]

end NN

namespace NN

/-- The forward loop on a chain-consistent store: every iteration succeeds,
one cache record per layer is appended storing the layer input, the layer
parameters and the pre-activation (all with dimension-indexed shapes), and
the running activation keeps the batch width. -/
theorem forwardLoop_full (dims : List ℕ) (ω : ℕ → ℕ → ℕ → ℝ) (s : NNState)
    (L batch : ℕ)
    (hW : ∀ k, 1 ≤ k → k ≤ L →
      dictGet s.parameters (true, k) = some (Wdraw dims ω k))
    (hb : ∀ k, 1 ≤ k → k ≤ L →
      dictGet s.parameters (false, k) = some (bZeros dims k))
    (hlt : ∀ k, 1 ≤ k → k ≤ L → pyGet? s.layer_type (k : ℤ) = some "fc")
    (hsel : ∀ k, 1 ≤ k → k ≤ L →
      ∃ sel, pyGet? s.activations ((k : ℤ) - 1) = some sel ∧ ValidSel sel) :
    ∀ (fuel i : ℕ) (A : Mat), 1 ≤ i → i + fuel ≤ L + 1 →
    A.rows = dims.getD (i - 1) 0 → A.cols = batch →
    ∃ recs A1, forwardLoop s (some A) i fuel = (recs, .ok (some A1)) ∧
      recs.length = fuel ∧
      A1.rows = dims.getD (i + fuel - 1) 0 ∧ A1.cols = batch ∧
      (∀ j, j < fuel → ∃ Ap Z,
        recs.get? j =
          some ⟨some (Ap, Wdraw dims ω (i + j), bZeros dims (i + j)), some Z⟩ ∧
        Ap.rows = dims.getD (i + j - 1) 0 ∧ Ap.cols = batch ∧
        Z.rows = dims.getD (i + j) 0 ∧ Z.cols = batch) := by
  intro fuel
  induction fuel with
  | zero =>
    intro i A hi hiL hAr hAc
    refine ⟨[], A, rfl, rfl, ?_, hAc, ?_⟩
    · simp only [Nat.add_zero]
      exact hAr
    · intro j hj
      omega
  | succ fuel ih =>
    intro i A hi hiL hAr hAc
    obtain ⟨sel, hs, hvsel⟩ := hsel i hi (by omega)
    obtain ⟨Z, A1, hstep, hZr, hZc, hA1r, hA1c⟩ :=
      forwardStep_spec s A i (Wdraw dims ω i) (bZeros dims i) sel
        (hW i hi (by omega)) (hb i hi (by omega)) (hlt i hi (by omega))
        hs hvsel (hAr.symm) rfl rfl
    obtain ⟨recs, A2, hloop, hlen, hA2r, hA2c, hrecs⟩ :=
      ih (i + 1) A1 (by omega) (by omega)
        (by simp only [Nat.add_sub_cancel]; exact hA1r)
        (by rw [hA1c, hAc])
    refine ⟨⟨some (A, Wdraw dims ω i, bZeros dims i), some Z⟩ :: recs, A2,
      ?_, ?_, ?_, hA2c, ?_⟩
    · simp only [forwardLoop, hstep, hloop]
    · simp only [List.length_cons, hlen]
    · rw [hA2r, show i + 1 + fuel - 1 = i + (fuel + 1) - 1 from by omega]
    · intro j hj
      cases j with
      | zero =>
        refine ⟨A, Z, rfl, ?_, hAc, ?_, ?_⟩
        · simp only [Nat.add_zero]
          exact hAr
        · simp only [Nat.add_zero]
          exact hZr
        · rw [hZc, hAc]
      | succ m =>
        obtain ⟨Ap, Z2, hget, h1, h2, h3, h4⟩ := hrecs m (by omega)
        have e1 : i + (m + 1) = i + 1 + m := by omega
        have e2 : i + (m + 1) - 1 = i + 1 + m - 1 := by omega
        refine ⟨Ap, Z2, ?_, ?_, h2, ?_, h4⟩
        · rw [show (⟨some (A, Wdraw dims ω i, bZeros dims i), some Z⟩ ::
              recs).get? (m + 1) = recs.get? m from rfl, e1]
          exact hget
        · rw [e2]
          exact h1
        · rw [e1]
          exact h3

end NN

namespace NN

/-- `forward` on a freshly constructed chain-consistent network: it succeeds,
writes one cache record per layer (layer input, parameters and pre-activation,
with dimension-indexed shapes), and the prediction has the output-layer shape.
The state is changed only in the cache. -/
theorem forward_full (dims : List ℕ) (acts : List (Option String))
    (ω : ℕ → ℕ → ℕ → ℝ) (x : Mat) (batch : ℕ)
    (hd : 2 ≤ dims.length)
    (hacts : acts.length ≤ dims.length - 1)
    (hv : ∀ a ∈ acts, ValidSel a)
    (hxr : x.rows = dims.getD 0 0) (hxc : x.cols = batch) :
    ∃ recs p, forward (init dims acts ω) x =
        ({ init dims acts ω with cache := recs }, .ok (some p)) ∧
      recs.length = dims.length - 1 ∧
      p.rows = dims.getD (dims.length - 1) 0 ∧ p.cols = batch ∧
      ∀ n, 1 ≤ n → n ≤ dims.length - 1 → ∃ Ap Z,
        pyGet? recs ((n : ℤ) - 1) =
          some ⟨some (Ap, Wdraw dims ω n, bZeros dims n), some Z⟩ ∧
        Ap.rows = dims.getD (n - 1) 0 ∧ Ap.cols = batch ∧
        Z.rows = dims.getD n 0 ∧ Z.cols = batch := by
  have hL1 : 1 ≤ dims.length - 1 := by omega
  have hL2 : (init dims acts ω).parameters.length = 2 * (dims.length - 1) :=
    init_params_length dims acts ω
  have hactlen : (init dims acts ω).activations.length = dims.length - 1 :=
    init_activations_length dims acts ω hacts
  have hlenhalf : (init dims acts ω).parameters.length / 2 = dims.length - 1 := by
    rw [hL2]
    omega
  obtain ⟨recs, A, hloop, hlen, hAr, hAc, hrecs⟩ :=
    forwardLoop_full dims ω (init dims acts ω) (dims.length - 1) batch
      (fun k h1 h2 => init_lookup_W dims acts ω k h1 h2)
      (fun k h1 h2 => init_lookup_b dims acts ω k h1 h2)
      (fun k h1 h2 => by
        rw [init_layer_type]
        exact pyGet_layer_type_fc (dims.length - 1) k h1 h2)
      (fun k h1 h2 => init_act_get dims acts ω hacts hv k h1 h2)
      (dims.length - 1 - 1) 1 x le_rfl (by omega) hxr hxc
  have hAr2 : A.rows = dims.getD (dims.length - 1 - 1) 0 := by
    rw [hAr, show 1 + (dims.length - 1 - 1) - 1 = dims.length - 1 - 1 from by omega]
  obtain ⟨Z, hZ, hZr, hZc⟩ := linear_forward_spec A
    (Wdraw dims ω (dims.length - 1)) (bZeros dims (dims.length - 1))
    hAr2.symm rfl rfl
  obtain ⟨selL, hsL, hvL⟩ :=
    init_act_get dims acts ω hacts hv (dims.length - 1) hL1 le_rfl
  have hsL2 : pyGet? (init dims acts ω).activations
      (((init dims acts ω).activations.length : ℤ) - 1) = some selL := by
    rw [hactlen]
    exact hsL
  obtain ⟨p, hact, hpr, hpc⟩ :=
    activate_spec (init dims acts ω) Z (init dims acts ω).activations.length
      selL hsL2 hvL
  have hcore : forwardCore (init dims acts ω) x =
      (recs ++ [⟨some (A, Wdraw dims ω (dims.length - 1),
        bZeros dims (dims.length - 1)), some Z⟩], .ok (some p)) := by
    simp only [forwardCore, hlenhalf, hloop,
      init_lookup_W dims acts ω (dims.length - 1) hL1 le_rfl,
      init_lookup_b dims acts ω (dims.length - 1) hL1 le_rfl, hZ]
    rw [if_pos (by rw [hactlen, hL2] :
      2 * (init dims acts ω).activations.length =
        (init dims acts ω).parameters.length)]
    simp only [hact]
  refine ⟨recs ++ [⟨some (A, Wdraw dims ω (dims.length - 1),
      bZeros dims (dims.length - 1)), some Z⟩], p, ?_, ?_, ?_, ?_, ?_⟩
  · simp only [forward, hcore]
  · simp only [List.length_append, List.length_cons, List.length_nil, hlen]
    omega
  · rw [hpr]
    exact hZr
  · rw [hpc, hZc, hAc]
  · intro n h1 h2
    rw [pyGet_succ_sub _ n h1]
    by_cases hn : n ≤ dims.length - 1 - 1
    · rw [List.get?_append (by omega : n - 1 < recs.length)]
      obtain ⟨Ap, Z2, hget, hh1, hh2, hh3, hh4⟩ := hrecs (n - 1) (by omega)
      have e : 1 + (n - 1) = n := by omega
      rw [e] at hget hh1 hh3
      exact ⟨Ap, Z2, hget, hh1, hh2, hh3, hh4⟩
    · have hnL : n = dims.length - 1 := by omega
      rw [List.get?_append_right (by omega : recs.length ≤ n - 1)]
      rw [show n - 1 - recs.length = 0 from by omega]
      refine ⟨A, Z, ?_, ?_, hAc, ?_, ?_⟩
      · rw [hnL]
        rfl
      · rw [hnL]
        exact hAr2
      · rw [hnL]
        exact hZr
      · rw [hZc, hAc]

end NN

namespace NN

/-- Reading the gradient dictionary after the three writes one backward-loop
iteration performs: the written keys read the new values, and `dW`/`db` keys
of later layers are untouched. -/
theorem gradSet3_props (g : List ((GKind × ℕ) × Option Mat)) (m : ℕ)
    (vW vb vA : Option Mat) :
    dictGet (gradSet (gradSet (gradSet g (GKind.dW, m + 1) vW)
      (GKind.db, m + 1) vb) (GKind.dA, m) vA) (GKind.dW, m + 1) = some vW ∧
    dictGet (gradSet (gradSet (gradSet g (GKind.dW, m + 1) vW)
      (GKind.db, m + 1) vb) (GKind.dA, m) vA) (GKind.db, m + 1) = some vb ∧
    dictGet (gradSet (gradSet (gradSet g (GKind.dW, m + 1) vW)
      (GKind.db, m + 1) vb) (GKind.dA, m) vA) (GKind.dA, m) = some vA ∧
    ∀ k, m + 1 < k →
      dictGet (gradSet (gradSet (gradSet g (GKind.dW, m + 1) vW)
        (GKind.db, m + 1) vb) (GKind.dA, m) vA) (GKind.dW, k) =
        dictGet g (GKind.dW, k) ∧
      dictGet (gradSet (gradSet (gradSet g (GKind.dW, m + 1) vW)
        (GKind.db, m + 1) vb) (GKind.dA, m) vA) (GKind.db, k) =
        dictGet g (GKind.db, k) := by
  unfold gradSet
  refine ⟨?_, ?_, ?_, ?_⟩
  · rw [dictGet_dictSet, if_neg (by simp), dictGet_dictSet, if_neg (by simp),
      dictGet_dictSet, if_pos rfl]
  · rw [dictGet_dictSet, if_neg (by simp), dictGet_dictSet, if_pos rfl]
  · rw [dictGet_dictSet, if_pos rfl]
  · intro k hk
    constructor
    · rw [dictGet_dictSet, if_neg (by simp), dictGet_dictSet, if_neg (by simp),
        dictGet_dictSet, if_neg (by simp; omega)]
    · rw [dictGet_dictSet, if_neg (by simp), dictGet_dictSet,
        if_neg (by simp; omega), dictGet_dictSet, if_neg (by simp)]

end NN

namespace NN

/-- The reverse loop of `backward` on a chain-consistent state whose gradient
dictionary already holds the incoming `dA` for the current depth: every
iteration succeeds, and afterwards every handled layer `k` has `dW`/`db`
gradients of exactly the parameter shapes, while deeper `dW`/`db` entries are
untouched. -/
theorem backwardLoop_full (dims : List ℕ) (ω : ℕ → ℕ → ℕ → ℝ)
    (batch L : ℕ) :
    ∀ (fuel : ℕ) (s : NNState), fuel ≤ L - 1 →
    (∀ k, 1 ≤ k → k ≤ L →
      dictGet s.parameters (true, k) = some (Wdraw dims ω k)) →
    s.layer_type = List.replicate L "fc" →
    (∀ k, 1 ≤ k → k ≤ L →
      ∃ sel, pyGet? s.activations ((k : ℤ) - 1) = some sel ∧ ValidSel sel) →
    (∀ k, 1 ≤ k → k ≤ L → ∃ Ap Z,
      pyGet? s.cache ((k : ℤ) - 1) =
        some ⟨some (Ap, Wdraw dims ω k, bZeros dims k), some Z⟩ ∧
      Ap.rows = dims.getD (k - 1) 0 ∧ Ap.cols = batch ∧
      Z.rows = dims.getD k 0 ∧ Z.cols = batch) →
    (∃ dAl, dictGet s.grads (GKind.dA, fuel) = some (some dAl) ∧
      dAl.rows = dims.getD fuel 0 ∧ dAl.cols = batch) →
    ∃ s2, backwardLoop s fuel = (s2, .ok ()) ∧
      (∀ k, 1 ≤ k → k ≤ fuel → ∃ gW gb,
        dictGet s2.grads (GKind.dW, k) = some (some gW) ∧
        dictGet s2.grads (GKind.db, k) = some (some gb) ∧
        gW.rows = dims.getD k 0 ∧ gW.cols = dims.getD (k - 1) 0 ∧
        gb.rows = dims.getD k 0 ∧ gb.cols = 1) ∧
      (∀ k, fuel < k →
        dictGet s2.grads (GKind.dW, k) = dictGet s.grads (GKind.dW, k) ∧
        dictGet s2.grads (GKind.db, k) = dictGet s.grads (GKind.db, k)) := by
  intro fuel
  induction fuel with
  | zero =>
    intro s hfL hpar hlt hsel hcache hgr
    refine ⟨s, rfl, ?_, ?_⟩
    · intro k h1 h2
      omega
    · intro k hk
      exact ⟨rfl, rfl⟩
  | succ m ih =>
    intro s hfL hpar hlt hsel hcache hgr
    have hltm : pyGet? s.layer_type ((m : ℕ) : ℤ) = some "fc" := by
      rw [hlt]
      exact pyGet_replicate_fc L m (by omega)
    obtain ⟨dAl, hdAl, hdr, hdc⟩ := hgr
    obtain ⟨Ap, Z, hcrec, hApr, hApc, hZr, hZc⟩ :=
      hcache (m + 1) (by omega) (by omega)
    obtain ⟨sel, hselm, hvsel⟩ := hsel (m + 1) (by omega) (by omega)
    obtain ⟨gW, gb, gA, hlb, hgWr, hgWc, hgbr, hgbc, hgAr, hgAc⟩ :=
      linear_backward_full dims ω s batch (m + 1) dAl Ap Z sel hcrec hselm
        hvsel (hpar (m + 1) (by omega) (by omega)) hApr hApc hZr hZc hdr hdc
    obtain ⟨hGW, hGb, hGA, hGpres⟩ := gradSet3_props s.grads m
      (some gW) (some gb) (some gA)
    obtain ⟨s2, hrec, hall, hpres⟩ := ih
      { s with grads := gradSet (gradSet (gradSet s.grads (GKind.dW, m + 1) (some gW)) (GKind.db, m + 1) (some gb)) (GKind.dA, m) (some gA) }
      (by omega)
      (fun k h1 h2 => hpar k h1 h2)
      hlt
      (fun k h1 h2 => hsel k h1 h2)
      (fun k h1 h2 => hcache k h1 h2)
      ⟨gA, hGA, hgAr, hgAc⟩
    refine ⟨s2, ?_, ?_, ?_⟩
    · simp only [backwardLoop, hltm, hdAl, hlb, if_true]
      exact hrec
    · intro k h1 h2
      by_cases hk : k ≤ m
      · exact hall k h1 hk
      · have hkm : k = m + 1 := by omega
        subst hkm
        obtain ⟨e1, e2⟩ := hpres (m + 1) (by omega)
        exact ⟨gW, gb, by rw [e1]; exact hGW, by rw [e2]; exact hGb,
          hgWr, hgWc, hgbr, hgbc⟩
    · intro k hk
      obtain ⟨e1, e2⟩ := hpres k (by omega)
      obtain ⟨f1, f2⟩ := hGpres k (by omega)
      exact ⟨by rw [e1]; exact f1, by rw [e2]; exact f2⟩

end NN

namespace NN

/-- `backward` on a chain-consistent state produced by a full forward pass,
after either loss selector has been stored: it succeeds (so no shape assert
fails) and every layer `k` receives `dW`/`db` gradients of exactly the
parameter shapes `[dims[k], dims[k-1]]` and `[dims[k], 1]`. -/
theorem backward_full (dims : List ℕ) (ω : ℕ → ℕ → ℕ → ℝ) (s : NNState)
    (batch L : ℕ) (p t : Mat) (hL : 1 ≤ L)
    (hcost : pyLower s.cost_function = "mseloss" ∨
             pyLower s.cost_function = "crossentropyloss")
    (hclen : s.cache.length = L)
    (hcache : ∀ k, 1 ≤ k → k ≤ L → ∃ Ap Z,
      pyGet? s.cache ((k : ℤ) - 1) =
        some ⟨some (Ap, Wdraw dims ω k, bZeros dims k), some Z⟩ ∧
      Ap.rows = dims.getD (k - 1) 0 ∧ Ap.cols = batch ∧
      Z.rows = dims.getD k 0 ∧ Z.cols = batch)
    (hsel : ∀ k, 1 ≤ k → k ≤ L →
      ∃ sel, pyGet? s.activations ((k : ℤ) - 1) = some sel ∧ ValidSel sel)
    (hpar : ∀ k, 1 ≤ k → k ≤ L →
      dictGet s.parameters (true, k) = some (Wdraw dims ω k))
    (hlt : s.layer_type = [""] ++ List.replicate L "fc")
    (hpr : p.rows = dims.getD L 0) (hpc : p.cols = batch)
    (htr : t.rows = dims.getD L 0) (htc : t.cols = batch) :
    ∃ s2, backward s p t = (s2, .ok ()) ∧
      ∀ k, 1 ≤ k → k ≤ L → ∃ gW gb,
        dictGet s2.grads (GKind.dW, k) = some (some gW) ∧
        dictGet s2.grads (GKind.db, k) = some (some gb) ∧
        gW.rows = dims.getD k 0 ∧ gW.cols = dims.getD (k - 1) 0 ∧
        gb.rows = dims.getD k 0 ∧ gb.cols = 1 := by
  obtain ⟨d, hob, hdr, hdc⟩ := output_backward_full s p t hcost
    (hpr.trans htr.symm) (hpc.trans htc.symm)
  obtain ⟨Ap, Z, hcrec, hApr, hApc, hZr, hZc⟩ := hcache L hL le_rfl
  obtain ⟨sel, hselL, hvsel⟩ := hsel L hL le_rfl
  obtain ⟨gWL, gbL, gAL, hlbL, hgWr, hgWc, hgbr, hgbc, hgAr, hgAc⟩ :=
    linear_backward_full dims ω s batch L d Ap Z sel hcrec hselL hvsel
      (hpar L hL le_rfl) hApr hApc hZr hZc (by rw [hdr, hpr]) (by rw [hdc, hpc])
  have hg1A : dictGet (gradSet (gradSet (gradSet s.grads (GKind.dW, L) (some gWL)) (GKind.db, L) (some gbL)) (GKind.dA, L - 1) (some gAL)) (GKind.dA, L - 1) = some (some gAL) := by
    unfold gradSet
    rw [dictGet_dictSet, if_pos rfl]
  have hg1W : dictGet (gradSet (gradSet (gradSet s.grads (GKind.dW, L) (some gWL)) (GKind.db, L) (some gbL)) (GKind.dA, L - 1) (some gAL)) (GKind.dW, L) = some (some gWL) := by
    unfold gradSet
    rw [dictGet_dictSet, if_neg (by simp), dictGet_dictSet, if_neg (by simp),
      dictGet_dictSet, if_pos rfl]
  have hg1b : dictGet (gradSet (gradSet (gradSet s.grads (GKind.dW, L) (some gWL)) (GKind.db, L) (some gbL)) (GKind.dA, L - 1) (some gAL)) (GKind.db, L) = some (some gbL) := by
    unfold gradSet
    rw [dictGet_dictSet, if_neg (by simp), dictGet_dictSet, if_pos rfl]
  obtain ⟨s2, hloop2, hall2, hpres2⟩ :=
    backwardLoop_full dims ω batch L (L - 1)
      { s with grads := gradSet (gradSet (gradSet s.grads (GKind.dW, L) (some gWL)) (GKind.db, L) (some gbL)) (GKind.dA, L - 1) (some gAL), layer_type := s.layer_type.drop 1 }
      (by omega)
      (fun k h1 h2 => hpar k h1 h2)
      (by show s.layer_type.drop 1 = List.replicate L "fc"
          rw [hlt]
          rfl)
      (fun k h1 h2 => hsel k h1 h2)
      (fun k h1 h2 => hcache k h1 h2)
      ⟨gAL, hg1A, hgAr, hgAc⟩
  have hback : backward s p t =
      backwardFinish s.layer_type
        (backwardLoop { s with grads := gradSet (gradSet (gradSet s.grads (GKind.dW, L) (some gWL)) (GKind.db, L) (some gbL)) (GKind.dA, L - 1) (some gAL), layer_type := s.layer_type.drop 1 } (L - 1)) := by
    simp only [backward, hclen, hob, hlbL]
  refine ⟨{ s2 with layer_type := s.layer_type }, ?_, ?_⟩
  · rw [hback, hloop2]
    rfl
  · intro k h1 h2
    show ∃ gW gb, dictGet s2.grads (GKind.dW, k) = some (some gW) ∧
      dictGet s2.grads (GKind.db, k) = some (some gb) ∧
      gW.rows = dims.getD k 0 ∧ gW.cols = dims.getD (k - 1) 0 ∧
      gb.rows = dims.getD k 0 ∧ gb.cols = 1
    by_cases hk : k ≤ L - 1
    · exact hall2 k h1 hk
    · have hkL : k = L := by omega
      subst hkL
      obtain ⟨e1, e2⟩ := hpres2 k (by omega)
      exact ⟨gWL, gbL, by rw [e1]; exact hg1W, by rw [e2]; exact hg1b,
        hgWr, hgWc, hgbr, hgbc⟩

end NN

namespace NN

/-- C1: on a network constructed with chain-consistent layer dimensions (valid
activation selectors, input of shape `[dims[0], batch]`, target matching the
output shape), forward succeeds, and after either loss call stores its
selector, backward succeeds — in particular none of the three shape asserts of
the linear-backward step fails — and for every layer `k` the gradient
dictionary holds a `dW`/`db` pair whose shapes exactly equal the shapes of
`W_k` and `b_k`. -/
theorem C1_gradient_shapes (dims : List ℕ) (acts : List (Option String))
    (ω : ℕ → ℕ → ℕ → ℝ) (x t : Mat) (batch : ℕ)
    (hd : 2 ≤ dims.length)
    (hacts : acts.length ≤ dims.length - 1)
    (hv : ∀ a ∈ acts, ValidSel a)
    (hxr : x.rows = dims.getD 0 0) (hxc : x.cols = batch)
    (htr : t.rows = dims.getD (dims.length - 1) 0) (htc : t.cols = batch) :
    ∃ s1 p, forward (init dims acts ω) x = (s1, .ok (some p)) ∧
      ∀ sc, sc = (MSELoss s1 p t).1 ∨ sc = (CrossEntropyLoss s1 p t).1 →
      ∃ s2, backward sc p t = (s2, .ok ()) ∧
      ∀ k, 1 ≤ k → k ≤ dims.length - 1 → ∃ W b gW gb,
        dictGet (init dims acts ω).parameters (true, k) = some W ∧
        dictGet (init dims acts ω).parameters (false, k) = some b ∧
        dictGet s2.grads (GKind.dW, k) = some (some gW) ∧
        dictGet s2.grads (GKind.db, k) = some (some gb) ∧
        gW.rows = W.rows ∧ gW.cols = W.cols ∧
        gb.rows = b.rows ∧ gb.cols = b.cols := by
  obtain ⟨recs, p, hfwd, hlen, hpr, hpc, hrecs⟩ :=
    forward_full dims acts ω x batch hd hacts hv hxr hxc
  refine ⟨{ init dims acts ω with cache := recs }, p, hfwd, ?_⟩
  have main : ∀ sc : NNState, sc.cache = recs →
      sc.activations = (init dims acts ω).activations →
      sc.parameters = (init dims acts ω).parameters →
      sc.layer_type = (init dims acts ω).layer_type →
      (pyLower sc.cost_function = "mseloss" ∨
       pyLower sc.cost_function = "crossentropyloss") →
      ∃ s2, backward sc p t = (s2, .ok ()) ∧
      ∀ k, 1 ≤ k → k ≤ dims.length - 1 → ∃ W b gW gb,
        dictGet (init dims acts ω).parameters (true, k) = some W ∧
        dictGet (init dims acts ω).parameters (false, k) = some b ∧
        dictGet s2.grads (GKind.dW, k) = some (some gW) ∧
        dictGet s2.grads (GKind.db, k) = some (some gb) ∧
        gW.rows = W.rows ∧ gW.cols = W.cols ∧
        gb.rows = b.rows ∧ gb.cols = b.cols := by
    intro sc hc ha hp hl hcst
    obtain ⟨s2, hbwd, hgr⟩ := backward_full dims ω sc batch
      (dims.length - 1) p t (by omega) hcst
      (by rw [hc]; exact hlen)
      (fun k h1 h2 => by rw [hc]; exact hrecs k h1 h2)
      (fun k h1 h2 => by rw [ha]; exact init_act_get dims acts ω hacts hv k h1 h2)
      (fun k h1 h2 => by rw [hp]; exact init_lookup_W dims acts ω k h1 h2)
      (by rw [hl]; exact init_layer_type dims acts ω)
      hpr hpc htr htc
    exact ⟨s2, hbwd, fun k h1 h2 => by
      obtain ⟨gW, gb, hgW, hgb, hr1, hr2, hr3, hr4⟩ := hgr k h1 h2
      exact ⟨Wdraw dims ω k, bZeros dims k,
        gW, gb, init_lookup_W dims acts ω k h1 h2,
        init_lookup_b dims acts ω k h1 h2, hgW, hgb, hr1, hr2, hr3, hr4⟩⟩
  intro sc hsc
  rcases hsc with h | h
  · subst h
    exact main ((MSELoss { init dims acts ω with cache := recs } p t).1)
      rfl rfl rfl rfl (Or.inl (by show pyLower "MSELoss" = "mseloss"; decide))
  · subst h
    exact main ((CrossEntropyLoss { init dims acts ω with cache := recs } p t).1)
      rfl rfl rfl rfl (Or.inr (by show pyLower "CrossEntropyLoss" = "crossentropyloss"; decide))

end NN

namespace NN

/-- Witness: the gradient-shape law instantiated on the concrete network
`init [1, 1] [] omega0` with a 1×1 input and target. -/
theorem C1_gradient_shapes_witness :
    ∃ s1 p, forward (init [1, 1] [] omega0) m11 = (s1, .ok (some p)) ∧
      ∀ sc, sc = (MSELoss s1 p m11).1 ∨ sc = (CrossEntropyLoss s1 p m11).1 →
      ∃ s2, backward sc p m11 = (s2, .ok ()) ∧
      ∀ k, 1 ≤ k → k ≤ [1, 1].length - 1 → ∃ W b gW gb,
        dictGet (init [1, 1] [] omega0).parameters (true, k) = some W ∧
        dictGet (init [1, 1] [] omega0).parameters (false, k) = some b ∧
        dictGet s2.grads (GKind.dW, k) = some (some gW) ∧
        dictGet s2.grads (GKind.db, k) = some (some gb) ∧
        gW.rows = W.rows ∧ gW.cols = W.cols ∧
        gb.rows = b.rows ∧ gb.cols = b.cols :=
  C1_gradient_shapes [1, 1] [] omega0 m11 m11 1 (by decide) (by decide)
    (by intro a ha; exact absurd ha (List.not_mem_nil a)) rfl rfl rfl rfl

end NN
